import Mathlib

/-!
Verification of the JSON-RPC message transport of `ast-rs`
(`src/msg.rs`, `src/connection.rs`).

The development shallowly embeds the transport:

* byte streams are `List Nat` (each element a byte value < 256);
* Rust `String` is Lean `String` (a list of unicode scalar values), with an
  explicit UTF-8 codec between the two;
* `serde_json::Value` is the `Json` tree below.  Modelled from the spec:
  the JSON codec itself lives in the `serde_json` dependency, not in the
  repository, so it is modelled from the spec's wire description ("JSON
  text", compact output, `jsonrpc` envelope merged in, untagged variant
  selection by field presence).  Numbers are modelled as arbitrary-precision
  integers (the messages of this protocol use integer ids and codes);
  floating-point payloads are outside the model;
* fallible reads return `Except RErr`, mirroring `std::io::Result` with the
  error kinds the source actually produces (`InvalidData`, `UnexpectedEof`).
-/

set_option linter.unusedVariables false

namespace AstRs

/-! ## JSON values (`serde_json::Value`, integers only) -/

inductive Json where
  | null : Json
  | bool (b : Bool) : Json
  | num (n : Int) : Json
  | str (s : String) : Json
  | arr (elems : List Json) : Json
  | obj (fields : List (String × Json)) : Json

mutual
def Json.beq : Json → Json → Bool
  | .null, .null => true
  | .bool a, .bool b => a = b
  | .num a, .num b => a = b
  | .str a, .str b => a = b
  | .arr a, .arr b => Json.beqL a b
  | .obj a, .obj b => Json.beqO a b
  | _, _ => false

def Json.beqL : List Json → List Json → Bool
  | [], [] => true
  | x :: xs, y :: ys => Json.beq x y && Json.beqL xs ys
  | _, _ => false

def Json.beqO : List (String × Json) → List (String × Json) → Bool
  | [], [] => true
  | (k, v) :: xs, (k', v') :: ys => k = k' && Json.beq v v' && Json.beqO xs ys
  | _, _ => false
end

mutual
theorem Json.beq_iff : ∀ a b : Json, Json.beq a b = true ↔ a = b
  | .null, b => by cases b <;> simp [Json.beq]
  | .bool x, b => by cases b <;> simp [Json.beq]
  | .num x, b => by cases b <;> simp [Json.beq]
  | .str x, b => by cases b <;> simp [Json.beq]
  | .arr xs, b => by
      cases b <;> simp [Json.beq]
      exact Json.beqL_iff xs _
  | .obj fs, b => by
      cases b <;> simp [Json.beq]
      exact Json.beqO_iff fs _

theorem Json.beqL_iff : ∀ a b : List Json, Json.beqL a b = true ↔ a = b
  | [], b => by cases b <;> simp [Json.beqL]
  | x :: xs, b => by
      cases b with
      | nil => simp [Json.beqL]
      | cons y ys =>
        simp [Json.beqL, Json.beq_iff x y, Json.beqL_iff xs ys]

theorem Json.beqO_iff : ∀ a b : List (String × Json), Json.beqO a b = true ↔ a = b
  | [], b => by cases b <;> simp [Json.beqO]
  | (k, v) :: xs, b => by
      cases b with
      | nil => simp [Json.beqO]
      | cons y ys =>
        obtain ⟨k', v'⟩ := y
        simp [Json.beqO, Json.beq_iff v v', Json.beqO_iff xs ys]
end

instance : DecidableEq Json := fun a b => decidable_of_iff _ (Json.beq_iff a b)

/-! ## Characters and decimal digits -/

/-- The unicode scalar value of a character, as a `Nat`. -/
theorem char_toNat_lt (c : Char) : c.toNat < 1114112 := by
  have h := c.valid
  simp only [Char.toNat]
  rcases h with h | h <;> omega

theorem char_not_surrogate (c : Char) : c.toNat < 55296 ∨ 57344 ≤ c.toNat := by
  have h := c.valid
  simp only [Char.toNat]
  rcases h with h | h <;> omega

theorem char_toNat_inj {a b : Char} (h : a.toNat = b.toNat) : a = b := by
  have ha := Char.ofNat_toNat a
  rw [h, Char.ofNat_toNat b] at ha
  exact ha.symm

/-- The decimal digit character for `d` (`d ≤ 9`; larger inputs clamp to `'9'`,
which the callers never produce). -/
def digitChar (d : Nat) : Char :=
  match d with
  | 0 => '0' | 1 => '1' | 2 => '2' | 3 => '3' | 4 => '4'
  | 5 => '5' | 6 => '6' | 7 => '7' | 8 => '8' | _ => '9'

/-- ASCII decimal digit test, modelling Rust's `char::is_ascii_digit` (used by
`usize` parsing) and the JSON grammar's digit class. -/
def isDigitC (c : Char) : Bool := 48 ≤ c.toNat && c.toNat ≤ 57

theorem isDigitC_toNat {c : Char} (h : isDigitC c = true) :
    48 ≤ c.toNat ∧ c.toNat ≤ 57 := by
  simpa [isDigitC] using h

theorem digitChar_toNat : ∀ d : Nat, d < 10 → (digitChar d).toNat = 48 + d := by decide

theorem digitChar_isDigit : ∀ d : Nat, d < 10 → isDigitC (digitChar d) = true := by decide

/-- Decimal rendering of a natural number, most significant digit first
(the digits of Rust's `Display`/`format!` for unsigned integers).
Structurally fueled so that the kernel can evaluate it; `natChars` instantiates
the fuel with the number itself, which always suffices. -/
def natDigitsF : Nat → Nat → List Char
  | 0, _ => []
  | fuel + 1, n => if n = 0 then [] else natDigitsF fuel (n / 10) ++ [digitChar (n % 10)]

def natChars (n : Nat) : List Char := if n = 0 then ['0'] else natDigitsF n n

/-- `natRepr n` is the decimal string of `n` (Rust `usize` `Display`). -/
def natRepr (n : Nat) : String := ⟨natChars n⟩

theorem natDigitsF_irrel : ∀ f g n, n ≤ f → n ≤ g → natDigitsF f n = natDigitsF g n := by
  intro f
  induction f with
  | zero =>
    intro g n hf hg
    interval_cases n
    cases g <;> simp [natDigitsF]
  | succ f ih =>
    intro g n hf hg
    by_cases h0 : n = 0
    · subst h0; cases g <;> simp [natDigitsF]
    · obtain ⟨g', rfl⟩ : ∃ g', g = g' + 1 := ⟨g - 1, by omega⟩
      have hdiv : n / 10 < n := Nat.div_lt_self (by omega) (by norm_num)
      simp only [natDigitsF, if_neg h0]
      rw [ih g' (n / 10) (by omega) (by omega)]

/-- Folding decimal digits onto an accumulator (the way a decimal parser
consumes them). -/
def foldDigits (acc : Nat) (l : List Char) : Nat :=
  l.foldl (fun a c => a * 10 + (c.toNat - 48)) acc

theorem foldDigits_append (acc : Nat) (l1 l2 : List Char) :
    foldDigits acc (l1 ++ l2) = foldDigits (foldDigits acc l1) l2 := by
  simp [foldDigits, List.foldl_append]

theorem natDigitsF_value : ∀ f n acc, n ≤ f →
    foldDigits acc (natDigitsF f n) = acc * 10 ^ (natDigitsF f n).length + n := by
  intro f
  induction f with
  | zero =>
    intro n acc h
    interval_cases n
    simp [natDigitsF, foldDigits]
  | succ f ih =>
    intro n acc h
    by_cases h0 : n = 0
    · subst h0; simp [natDigitsF, foldDigits]
    · have hdiv : n / 10 < n := Nat.div_lt_self (by omega) (by norm_num)
      simp only [natDigitsF, if_neg h0]
      rw [foldDigits_append, ih (n / 10) acc (by omega)]
      have hmod : n % 10 < 10 := Nat.mod_lt _ (by norm_num)
      simp only [foldDigits, List.foldl_cons, List.foldl_nil, List.length_append,
        List.length_cons, List.length_nil]
      rw [digitChar_toNat _ hmod]
      have h48 : (48 : Nat) + n % 10 - 48 = n % 10 := by omega
      rw [h48, pow_succ]
      set K := (10 : Nat) ^ (natDigitsF f (n / 10)).length
      have hmul : acc * (K * 10) = acc * K * 10 := by ring
      rw [hmul]
      omega

theorem natDigitsF_digits : ∀ f n c, c ∈ natDigitsF f n → isDigitC c = true := by
  intro f
  induction f with
  | zero => intro n c h; simp [natDigitsF] at h
  | succ f ih =>
    intro n c h
    by_cases h0 : n = 0
    · subst h0; simp [natDigitsF] at h
    · simp only [natDigitsF, if_neg h0, List.mem_append, List.mem_singleton] at h
      rcases h with h | h
      · exact ih _ _ h
      · subst h; exact digitChar_isDigit _ (Nat.mod_lt _ (by norm_num))

theorem natChars_digits {n : Nat} {c : Char} (h : c ∈ natChars n) : isDigitC c = true := by
  by_cases h0 : n = 0
  · subst h0; simp [natChars] at h; subst h; decide
  · simp only [natChars, if_neg h0] at h
    exact natDigitsF_digits n n c h

theorem natChars_ne_nil (n : Nat) : natChars n ≠ [] := by
  by_cases h0 : n = 0
  · subst h0; simp [natChars]
  · simp only [natChars, if_neg h0]
    obtain ⟨f, rfl⟩ : ∃ f, n = f + 1 := ⟨n - 1, by omega⟩
    simp [natDigitsF, h0]

theorem foldDigits_natChars (n : Nat) : foldDigits 0 (natChars n) = n := by
  by_cases h0 : n = 0
  · subst h0; simp [natChars, foldDigits]
  · simp only [natChars, if_neg h0]
    rw [natDigitsF_value n n 0 (le_refl _)]
    simp

/-- `true` when the list does not start with a decimal digit (so a greedy
digit scan stops exactly at its head). -/
def headNotDigit : List Char → Bool
  | [] => true
  | c :: _ => !(isDigitC c)

/-- Greedy decimal scan: consume leading digits onto `acc`, return the value
and the unconsumed tail. -/
def pDigitsGo : Nat → List Char → Nat × List Char
  | acc, [] => (acc, [])
  | acc, c :: cs =>
    if isDigitC c then pDigitsGo (acc * 10 + (c.toNat - 48)) cs else (acc, c :: cs)

/-- Parse one or more decimal digits, greedily. -/
def pDigits : List Char → Option (Nat × List Char)
  | [] => none
  | c :: cs => if isDigitC c then some (pDigitsGo (c.toNat - 48) cs) else none

theorem pDigitsGo_spec : ∀ (l : List Char) (acc : Nat) (rest : List Char),
    (∀ c ∈ l, isDigitC c = true) → headNotDigit rest = true →
    pDigitsGo acc (l ++ rest) = (foldDigits acc l, rest) := by
  intro l
  induction l with
  | nil =>
    intro acc rest hd hr
    cases rest with
    | nil => simp [pDigitsGo, foldDigits]
    | cons c cs =>
      simp only [headNotDigit, Bool.not_eq_true'] at hr
      simp [pDigitsGo, hr, foldDigits]
  | cons c cs ih =>
    intro acc rest hd hr
    have hc : isDigitC c = true := hd c (by simp)
    simp only [List.cons_append, pDigitsGo, hc, if_pos]
    show pDigitsGo (acc * 10 + (c.toNat - 48)) (cs ++ rest) = _
    rw [ih _ rest (fun d hdm => hd d (by simp [hdm])) hr]
    simp [foldDigits]

theorem pDigits_natChars (n : Nat) (rest : List Char) (hr : headNotDigit rest = true) :
    pDigits (natChars n ++ rest) = some (n, rest) := by
  obtain ⟨c, t, hct⟩ : ∃ c t, natChars n = c :: t := by
    cases h : natChars n with
    | nil => exact absurd h (natChars_ne_nil n)
    | cons c t => exact ⟨c, t, rfl⟩
  have hc : isDigitC c = true := natChars_digits (by rw [hct]; simp)
  have ht : ∀ d ∈ t, isDigitC d = true := fun d hdm => natChars_digits (by rw [hct]; simp [hdm])
  rw [hct]
  simp only [List.cons_append, pDigits, hc, if_pos]
  rw [pDigitsGo_spec t _ rest ht hr]
  have : foldDigits (c.toNat - 48) t = foldDigits 0 (c :: t) := by
    simp [foldDigits]
  rw [this, ← hct, foldDigits_natChars]

/-- All-or-nothing digit parse: the body of Rust's `usize::from_str` after the
optional sign (nonempty, digits only; overflow at `usize::MAX` is not
modelled, `Nat` being unbounded). -/
def parseDigitsAll (l : List Char) : Option Nat :=
  if l = [] then none
  else if l.all (fun c => isDigitC c) then some (foldDigits 0 l) else none

/-- Rust's `str::parse::<usize>`: an optional leading `+`, then one or more
decimal digits; anything else is an error. -/
def parseUsizeChars : List Char → Option Nat
  | [] => none
  | c :: rest => if c = '+' then parseDigitsAll rest else parseDigitsAll (c :: rest)

theorem parseUsizeChars_natChars (n : Nat) : parseUsizeChars (natChars n) = some n := by
  obtain ⟨c, t, hct⟩ : ∃ c t, natChars n = c :: t := by
    cases h : natChars n with
    | nil => exact absurd h (natChars_ne_nil n)
    | cons c t => exact ⟨c, t, rfl⟩
  have hc : isDigitC c = true := natChars_digits (by rw [hct]; simp)
  have hplus : c ≠ '+' := by
    intro h
    subst h
    simp [isDigitC] at hc
  have hall : (natChars n).all (fun c => isDigitC c) = true := by
    simp only [List.all_eq_true]
    exact fun d hdm => natChars_digits hdm
  rw [hct]
  simp only [parseUsizeChars, if_neg hplus]
  rw [← hct]
  simp only [parseDigitsAll, if_neg (natChars_ne_nil n), hall, if_pos, foldDigits_natChars]

/-! ## UTF-8 codec

`utf8EncodeChar`/`utf8DecodeList` are the standard UTF-8 encoding of unicode
scalar values, as produced/validated by Rust `String`s
(`String::from_utf8` rejects overlong forms, surrogates and out-of-range
values; `read_line` performs the same validation). -/

def utf8EncodeChar (c : Char) : List Nat :=
  let v := c.toNat
  if v < 128 then [v]
  else if v < 2048 then [192 + v / 64, 128 + v % 64]
  else if v < 65536 then [224 + v / 4096, 128 + v / 64 % 64, 128 + v % 64]
  else [240 + v / 262144, 128 + v / 4096 % 64, 128 + v / 64 % 64, 128 + v % 64]

def utf8EncodeList : List Char → List Nat
  | [] => []
  | c :: cs => utf8EncodeChar c ++ utf8EncodeList cs

def utf8Encode (s : String) : List Nat := utf8EncodeList s.data


/-- Decode one UTF-8 sequence from the head of the stream: the scalar value
and the remaining bytes.  Rejects stray/missing continuation bytes, overlong
forms, surrogates and values above U+10FFFF, exactly as Rust's UTF-8
validation does. -/
def utf8DecodeChar1 : List Nat → Option (Nat × List Nat)
  | [] => none
  | b :: bs =>
    if b < 128 then some (b, bs)
    else if b < 192 then none
    else if b < 224 then
      match bs with
      | b1 :: bs' =>
        if 128 ≤ b1 ∧ b1 < 192 then
          if 128 ≤ (b - 192) * 64 + (b1 - 128) then some ((b - 192) * 64 + (b1 - 128), bs')
          else none
        else none
      | [] => none
    else if b < 240 then
      match bs with
      | b1 :: b2 :: bs' =>
        if (128 ≤ b1 ∧ b1 < 192) ∧ (128 ≤ b2 ∧ b2 < 192) then
          let v := (b - 224) * 4096 + (b1 - 128) * 64 + (b2 - 128)
          if 2048 ≤ v ∧ (v < 55296 ∨ 57344 ≤ v) then some (v, bs') else none
        else none
      | _ => none
    else if b < 248 then
      match bs with
      | b1 :: b2 :: b3 :: bs' =>
        if (128 ≤ b1 ∧ b1 < 192) ∧ (128 ≤ b2 ∧ b2 < 192) ∧ (128 ≤ b3 ∧ b3 < 192) then
          let v := (b - 240) * 262144 + (b1 - 128) * 4096 + (b2 - 128) * 64 + (b3 - 128)
          if 65536 ≤ v ∧ v < 1114112 then some (v, bs') else none
        else none
      | _ => none
    else none

/-- Fueled UTF-8 decoding loop; `utf8DecodeList` instantiates the fuel with
the stream length, which always suffices because every step consumes at least
one byte. -/
def utf8DecodeGo : Nat → List Nat → Option (List Char)
  | _, [] => some []
  | 0, _ :: _ => none
  | fuel + 1, b :: bs =>
    match utf8DecodeChar1 (b :: bs) with
    | some (v, rest) => (utf8DecodeGo fuel rest).map (fun cs => Char.ofNat v :: cs)
    | none => none

def utf8DecodeList (bytes : List Nat) : Option (List Char) :=
  utf8DecodeGo bytes.length bytes

def utf8Decode (bytes : List Nat) : Option String :=
  (utf8DecodeList bytes).map String.mk

theorem utf8DecodeChar1_consumes : ∀ bs v rest,
    utf8DecodeChar1 bs = some (v, rest) → rest.length < bs.length := by
  intro bs v rest h
  match bs with
  | [] => exact Option.noConfusion h
  | [b] =>
    unfold utf8DecodeChar1 at h
    dsimp only at h
    split_ifs at h <;>
      first
      | exact Option.noConfusion h
      | (injection h with h2; injection h2 with hv hr; subst hv; subst hr;
         simp only [List.length_cons]; omega)
  | [b, b1] =>
    unfold utf8DecodeChar1 at h
    dsimp only at h
    split_ifs at h <;>
      first
      | exact Option.noConfusion h
      | (injection h with h2; injection h2 with hv hr; subst hv; subst hr;
         simp only [List.length_cons]; omega)
  | [b, b1, b2] =>
    unfold utf8DecodeChar1 at h
    dsimp only at h
    split_ifs at h <;>
      first
      | exact Option.noConfusion h
      | (injection h with h2; injection h2 with hv hr; subst hv; subst hr;
         simp only [List.length_cons]; omega)
  | b :: b1 :: b2 :: b3 :: bs' =>
    unfold utf8DecodeChar1 at h
    dsimp only at h
    split_ifs at h <;>
      first
      | exact Option.noConfusion h
      | (injection h with h2; injection h2 with hv hr; subst hv; subst hr;
         simp only [List.length_cons]; omega)

theorem utf8DecodeGo_irrel : ∀ f g bs, bs.length ≤ f → bs.length ≤ g →
    utf8DecodeGo f bs = utf8DecodeGo g bs := by
  intro f
  induction f with
  | zero =>
    intro g bs hf hg
    match bs with
    | [] => cases g <;> rfl
    | b :: bs => simp at hf
  | succ f ih =>
    intro g bs hf hg
    match bs with
    | [] => cases g <;> rfl
    | b :: bs =>
      obtain ⟨g', rfl⟩ : ∃ g', g = g' + 1 := ⟨g - 1, by simp at hg; omega⟩
      simp only [utf8DecodeGo]
      cases hdec : utf8DecodeChar1 (b :: bs) with
      | none => rfl
      | some p =>
        obtain ⟨v, rest⟩ := p
        have hlt := utf8DecodeChar1_consumes _ _ _ hdec
        simp only [List.length_cons] at hf hg hlt
        dsimp only
        rw [ih g' rest (by omega) (by omega)]

theorem utf8DecodeChar1_encode (c : Char) (bs : List Nat) :
    utf8DecodeChar1 (utf8EncodeChar c ++ bs) = some (c.toNat, bs) := by
  have hlt := char_toNat_lt c
  have hsur := char_not_surrogate c
  by_cases h1 : c.toNat < 128
  · simp only [utf8EncodeChar, if_pos h1, List.cons_append, List.nil_append]
    simp only [utf8DecodeChar1, if_pos h1]
  · by_cases h2 : c.toNat < 2048
    · simp only [utf8EncodeChar, if_neg h1, if_pos h2, List.cons_append, List.nil_append]
      have e1 : ¬ (192 + c.toNat / 64 < 128) := by omega
      have e2 : ¬ (192 + c.toNat / 64 < 192) := by omega
      have e3 : 192 + c.toNat / 64 < 224 := by omega
      have hm : c.toNat % 64 < 64 := Nat.mod_lt _ (by norm_num)
      have e4 : 128 ≤ 128 + c.toNat % 64 ∧ 128 + c.toNat % 64 < 192 := by omega
      have e5 : (192 + c.toNat / 64 - 192) * 64 + (128 + c.toNat % 64 - 128) = c.toNat := by
        omega
      unfold utf8DecodeChar1
      dsimp only
      rw [if_neg e1, if_neg e2, if_pos e3, if_pos e4, e5, if_pos (show 128 ≤ c.toNat by omega)]
    · by_cases h3 : c.toNat < 65536
      · simp only [utf8EncodeChar, if_neg h1, if_neg h2, if_pos h3, List.cons_append,
          List.nil_append]
        have e1 : ¬ (224 + c.toNat / 4096 < 128) := by omega
        have e2 : ¬ (224 + c.toNat / 4096 < 192) := by omega
        have e3 : ¬ (224 + c.toNat / 4096 < 224) := by omega
        have e4 : 224 + c.toNat / 4096 < 240 := by omega
        have m1 : c.toNat / 64 % 64 < 64 := Nat.mod_lt _ (by norm_num)
        have m2 : c.toNat % 64 < 64 := Nat.mod_lt _ (by norm_num)
        have e5 : (128 ≤ 128 + c.toNat / 64 % 64 ∧ 128 + c.toNat / 64 % 64 < 192) ∧
            (128 ≤ 128 + c.toNat % 64 ∧ 128 + c.toNat % 64 < 192) := by omega
        have e6 : (224 + c.toNat / 4096 - 224) * 4096 + (128 + c.toNat / 64 % 64 - 128) * 64 +
            (128 + c.toNat % 64 - 128) = c.toNat := by omega
        have e7 : 2048 ≤ (224 + c.toNat / 4096 - 224) * 4096 +
            (128 + c.toNat / 64 % 64 - 128) * 64 + (128 + c.toNat % 64 - 128) ∧
            ((224 + c.toNat / 4096 - 224) * 4096 + (128 + c.toNat / 64 % 64 - 128) * 64 +
              (128 + c.toNat % 64 - 128) < 55296 ∨
             57344 ≤ (224 + c.toNat / 4096 - 224) * 4096 +
              (128 + c.toNat / 64 % 64 - 128) * 64 + (128 + c.toNat % 64 - 128)) := by
          rw [e6]; exact ⟨by omega, hsur⟩
        unfold utf8DecodeChar1
        dsimp only
        rw [if_neg e1, if_neg e2, if_neg e3, if_pos e4, if_pos e5, if_pos e7, e6]
      · simp only [utf8EncodeChar, if_neg h1, if_neg h2, if_neg h3, List.cons_append,
          List.nil_append]
        have e1 : ¬ (240 + c.toNat / 262144 < 128) := by omega
        have e2 : ¬ (240 + c.toNat / 262144 < 192) := by omega
        have e3 : ¬ (240 + c.toNat / 262144 < 224) := by omega
        have e4 : ¬ (240 + c.toNat / 262144 < 240) := by omega
        have e5 : 240 + c.toNat / 262144 < 248 := by omega
        have m1 : c.toNat / 4096 % 64 < 64 := Nat.mod_lt _ (by norm_num)
        have m2 : c.toNat / 64 % 64 < 64 := Nat.mod_lt _ (by norm_num)
        have m3 : c.toNat % 64 < 64 := Nat.mod_lt _ (by norm_num)
        have hd : c.toNat / 262144 < 5 := by omega
        have e6 : (128 ≤ 128 + c.toNat / 4096 % 64 ∧ 128 + c.toNat / 4096 % 64 < 192) ∧
            (128 ≤ 128 + c.toNat / 64 % 64 ∧ 128 + c.toNat / 64 % 64 < 192) ∧
            (128 ≤ 128 + c.toNat % 64 ∧ 128 + c.toNat % 64 < 192) := by omega
        have e7 : (240 + c.toNat / 262144 - 240) * 262144 +
            (128 + c.toNat / 4096 % 64 - 128) * 4096 +
            (128 + c.toNat / 64 % 64 - 128) * 64 + (128 + c.toNat % 64 - 128) = c.toNat := by
          omega
        have e8 : 65536 ≤ (240 + c.toNat / 262144 - 240) * 262144 +
              (128 + c.toNat / 4096 % 64 - 128) * 4096 +
              (128 + c.toNat / 64 % 64 - 128) * 64 + (128 + c.toNat % 64 - 128) ∧
            (240 + c.toNat / 262144 - 240) * 262144 +
              (128 + c.toNat / 4096 % 64 - 128) * 4096 +
              (128 + c.toNat / 64 % 64 - 128) * 64 + (128 + c.toNat % 64 - 128) < 1114112 := by
          rw [e7]; exact ⟨by omega, hlt⟩
        unfold utf8DecodeChar1
        dsimp only
        rw [if_neg e1, if_neg e2, if_neg e3, if_neg e4, if_pos e5, if_pos e6, if_pos e8, e7]

theorem utf8EncodeList_append (l1 l2 : List Char) :
    utf8EncodeList (l1 ++ l2) = utf8EncodeList l1 ++ utf8EncodeList l2 := by
  induction l1 with
  | nil => simp [utf8EncodeList]
  | cons c cs ih => simp [utf8EncodeList, ih]

theorem utf8EncodeChar_ne_nil (c : Char) : utf8EncodeChar c ≠ [] := by
  unfold utf8EncodeChar
  dsimp only
  split_ifs <;> simp

theorem utf8DecodeGo_encodeList : ∀ (l : List Char) (bs : List Nat) (f : Nat),
    (utf8EncodeList l ++ bs).length ≤ f →
    utf8DecodeGo f (utf8EncodeList l ++ bs) = (utf8DecodeGo f bs).map (fun cs => l ++ cs) := by
  intro l
  induction l with
  | nil =>
    intro bs f hf
    simp only [utf8EncodeList, List.nil_append]
    cases utf8DecodeGo f bs <;> simp
  | cons c cs ih =>
    intro bs f hf
    have hne := utf8EncodeChar_ne_nil c
    have hassoc : utf8EncodeList (c :: cs) ++ bs
        = utf8EncodeChar c ++ (utf8EncodeList cs ++ bs) := by
      simp [utf8EncodeList, List.append_assoc]
    have hcons : 1 ≤ (utf8EncodeChar c).length := by
      cases hc : utf8EncodeChar c with
      | nil => exact absurd hc hne
      | cons x xs => simp
    have hlenfull : (utf8EncodeList (c :: cs) ++ bs).length
        = (utf8EncodeChar c).length + (utf8EncodeList cs ++ bs).length := by
      rw [hassoc]; simp
    obtain ⟨f', rfl⟩ : ∃ f', f = f' + 1 := ⟨f - 1, by omega⟩
    have hlen : (utf8EncodeList cs ++ bs).length ≤ f' := by omega
    have hbs : bs.length ≤ f' := by
      have hb1 : bs.length ≤ (utf8EncodeList cs ++ bs).length := by simp
      omega
    rw [hassoc]
    obtain ⟨b0, bt, hb⟩ : ∃ b0 bt, utf8EncodeChar c ++ (utf8EncodeList cs ++ bs) = b0 :: bt := by
      cases hc : utf8EncodeChar c with
      | nil => exact absurd hc hne
      | cons x xs => exact ⟨x, xs ++ (utf8EncodeList cs ++ bs), by simp [hc]⟩
    rw [hb]
    simp only [utf8DecodeGo]
    rw [← hb, utf8DecodeChar1_encode c (utf8EncodeList cs ++ bs)]
    dsimp only
    rw [ih bs f' hlen, utf8DecodeGo_irrel (f' + 1) f' bs (by omega) hbs, Char.ofNat_toNat]
    cases utf8DecodeGo f' bs <;> simp

theorem utf8DecodeList_encodeList (l : List Char) (bs : List Nat) :
    utf8DecodeList (utf8EncodeList l ++ bs) = (utf8DecodeGo bs.length bs).map (fun cs => l ++ cs) := by
  unfold utf8DecodeList
  rw [utf8DecodeGo_encodeList l bs _ (le_refl _)]
  congr 1
  exact utf8DecodeGo_irrel _ _ bs (by simp) (le_refl _)

theorem utf8DecodeList_encode (l : List Char) :
    utf8DecodeList (utf8EncodeList l) = some l := by
  have h := utf8DecodeList_encodeList l []
  simpa [utf8DecodeList, utf8DecodeGo] using h

theorem utf8Decode_encode (s : String) : utf8Decode (utf8Encode s) = some s := by
  unfold utf8Decode utf8Encode
  rw [utf8DecodeList_encode]
  cases s
  rfl

/-! ## JSON rendering

Modelled from the spec: compact JSON text (`serde_json::to_string`), no
inter-token whitespace, object fields in the order serde emits them.  String
escaping: `"` and `\` get a backslash escape, control characters below
U+0020 are written as `\u00XX`, everything else is emitted raw. -/

def hexChar (d : Nat) : Char :=
  match d with
  | 0 => '0' | 1 => '1' | 2 => '2' | 3 => '3' | 4 => '4'
  | 5 => '5' | 6 => '6' | 7 => '7' | 8 => '8' | 9 => '9'
  | 10 => 'a' | 11 => 'b' | 12 => 'c' | 13 => 'd' | 14 => 'e' | _ => 'f'

def escapeChar (c : Char) : List Char :=
  if c = '"' then ['\\', '"']
  else if c = '\\' then ['\\', '\\']
  else if c.toNat < 32 then ['\\', 'u', '0', '0', hexChar (c.toNat / 16), hexChar (c.toNat % 16)]
  else [c]

def escapeList : List Char → List Char
  | [] => []
  | c :: cs => escapeChar c ++ escapeList cs

/-- A JSON string literal: quote, escaped content, quote. -/
def renderStrLit (l : List Char) : List Char := '"' :: (escapeList l ++ ['"'])

/-- JSON integer literal (optional minus sign, decimal digits). -/
def renderInt (n : Int) : List Char :=
  if n < 0 then '-' :: natChars (-n).toNat else natChars n.toNat

mutual
def renderJson : Json → List Char
  | .null => 'n' :: ['u', 'l', 'l']
  | .bool true => 't' :: ['r', 'u', 'e']
  | .bool false => 'f' :: ['a', 'l', 's', 'e']
  | .num n => renderInt n
  | .str s => renderStrLit s.data
  | .arr xs => '[' :: (renderArr xs ++ [']'])
  | .obj fs => '\x7b' :: (renderObj fs ++ ['\x7d'])

def renderArr : List Json → List Char
  | [] => []
  | x :: xs => renderJson x ++ renderArrRest xs

def renderArrRest : List Json → List Char
  | [] => []
  | x :: xs => ',' :: (renderJson x ++ renderArrRest xs)

def renderObj : List (String × Json) → List Char
  | [] => []
  | (k, v) :: fs => (renderStrLit k.data ++ ':' :: renderJson v) ++ renderObjRest fs

def renderObjRest : List (String × Json) → List Char
  | [] => []
  | (k, v) :: fs => ',' :: ((renderStrLit k.data ++ ':' :: renderJson v) ++ renderObjRest fs)
end

/-! ## JSON parsing

Modelled from the spec: "parse into a generic structured tree"
(`serde_json::from_str`).  The parser is exact about string escapes, digit
runs and delimiters; numbers are restricted to integers (no
fraction/exponent forms) and no inter-token whitespace is accepted, matching
the compact output of the writer. -/

def hexVal (c : Char) : Option Nat :=
  if 48 ≤ c.toNat ∧ c.toNat ≤ 57 then some (c.toNat - 48)
  else if 97 ≤ c.toNat ∧ c.toNat ≤ 102 then some (c.toNat - 87)
  else if 65 ≤ c.toNat ∧ c.toNat ≤ 70 then some (c.toNat - 55)
  else none

/-- Parse a JSON string body (after the opening quote), returning the decoded
characters and the input after the closing quote.  Handles the standard
escapes; a lone `\uXXXX` surrogate is rejected. -/
def pStr : List Char → Option (List Char × List Char)
  | [] => none
  | c :: rest =>
    if c = '"' then some ([], rest)
    else if c = '\\' then
      match rest with
      | [] => none
      | e :: rest2 =>
        if e = '"' then (pStr rest2).map (fun p => ('"' :: p.1, p.2))
        else if e = '\\' then (pStr rest2).map (fun p => ('\\' :: p.1, p.2))
        else if e = '/' then (pStr rest2).map (fun p => ('/' :: p.1, p.2))
        else if e = 'b' then (pStr rest2).map (fun p => ('\x08' :: p.1, p.2))
        else if e = 'f' then (pStr rest2).map (fun p => ('\x0C' :: p.1, p.2))
        else if e = 'n' then (pStr rest2).map (fun p => ('\n' :: p.1, p.2))
        else if e = 'r' then (pStr rest2).map (fun p => ('\r' :: p.1, p.2))
        else if e = 't' then (pStr rest2).map (fun p => ('\t' :: p.1, p.2))
        else if e = 'u' then
          match rest2 with
          | h1 :: h2 :: h3 :: h4 :: rest3 =>
            match hexVal h1, hexVal h2, hexVal h3, hexVal h4 with
            | some a, some b, some c2, some d =>
              let v := ((a * 16 + b) * 16 + c2) * 16 + d
              if v < 55296 ∨ (57344 ≤ v ∧ v < 1114112) then
                (pStr rest3).map (fun p => (Char.ofNat v :: p.1, p.2))
              else none
            | _, _, _, _ => none
          | _ => none
        else none
    else if c.toNat < 32 then none
    else (pStr rest).map (fun p => (c :: p.1, p.2))

mutual
def pVal : Nat → List Char → Option (Json × List Char)
  | 0, _ => none
  | _ + 1, [] => none
  | fuel + 1, c :: cs =>
    if c = 'n' then
      match cs with
      | 'u' :: 'l' :: 'l' :: r => some (.null, r)
      | _ => none
    else if c = 't' then
      match cs with
      | 'r' :: 'u' :: 'e' :: r => some (.bool true, r)
      | _ => none
    else if c = 'f' then
      match cs with
      | 'a' :: 'l' :: 's' :: 'e' :: r => some (.bool false, r)
      | _ => none
    else if c = '"' then
      match pStr cs with
      | some (s, r) => some (.str ⟨s⟩, r)
      | none => none
    else if c = '[' then
      match cs with
      | [] => none
      | d :: cs2 =>
        if d = ']' then some (.arr [], cs2)
        else
          match pVal fuel (d :: cs2) with
          | some (x, r) =>
            match pArrRest fuel r with
            | some (xs, r2) => some (.arr (x :: xs), r2)
            | none => none
          | none => none
    else if c = '\x7b' then
      match cs with
      | [] => none
      | d :: cs2 =>
        if d = '\x7d' then some (.obj [], cs2)
        else if d = '"' then
          match pStr cs2 with
          | some (k, r) =>
            match r with
            | ':' :: r2 =>
              match pVal fuel r2 with
              | some (v, r3) =>
                match pObjRest fuel r3 with
                | some (fs, r4) => some (.obj ((⟨k⟩, v) :: fs), r4)
                | none => none
              | none => none
            | _ => none
          | none => none
        else none
    else if c = '-' then
      match pDigits cs with
      | some (n, r) => some (.num (-(n : Int)), r)
      | none => none
    else if isDigitC c then
      match pDigits (c :: cs) with
      | some (n, r) => some (.num (n : Int), r)
      | none => none
    else none

def pArrRest : Nat → List Char → Option (List Json × List Char)
  | 0, _ => none
  | _ + 1, [] => none
  | fuel + 1, c :: cs =>
    if c = ']' then some ([], cs)
    else if c = ',' then
      match pVal fuel cs with
      | some (x, r) =>
        match pArrRest fuel r with
        | some (xs, r2) => some (x :: xs, r2)
        | none => none
      | none => none
    else none

def pObjRest : Nat → List Char → Option (List (String × Json) × List Char)
  | 0, _ => none
  | _ + 1, [] => none
  | fuel + 1, c :: cs =>
    if c = '\x7d' then some ([], cs)
    else if c = ',' then
      match cs with
      | '"' :: cs2 =>
        match pStr cs2 with
        | some (k, r) =>
          match r with
          | ':' :: r2 =>
            match pVal fuel r2 with
            | some (v, r3) =>
              match pObjRest fuel r3 with
              | some (fs, r4) => some ((⟨k⟩, v) :: fs, r4)
              | none => none
            | none => none
          | _ => none
        | none => none
      | _ => none
    else none
end

/-- Parse a complete JSON document: the whole input must be consumed
(`serde_json::from_str` rejects trailing content). -/
def jsonParse (s : String) : Option Json :=
  match pVal (s.data.length + 1) s.data with
  | some (j, []) => some j
  | _ => none

/-! ## Parser inverts renderer -/

mutual
def jsize : Json → Nat
  | .null => 1
  | .bool _ => 1
  | .num _ => 1
  | .str _ => 1
  | .arr xs => 1 + jsizeL xs
  | .obj fs => 1 + jsizeO fs

def jsizeL : List Json → Nat
  | [] => 0
  | x :: xs => jsize x + jsizeL xs

def jsizeO : List (String × Json) → Nat
  | [] => 0
  | (_, v) :: fs => jsize v + jsizeO fs
end

theorem jsize_pos : ∀ j : Json, 0 < jsize j := by
  intro j
  cases j <;> simp [jsize] <;> omega

theorem hexVal_hexChar : ∀ d : Nat, d < 16 → hexVal (hexChar d) = some d := by decide

theorem pStr_escape : ∀ (l : List Char) (rest : List Char),
    pStr (escapeList l ++ '"' :: rest) = some (l, rest) := by
  intro l
  induction l with
  | nil =>
    intro rest
    rw [show escapeList [] ++ '"' :: rest = '"' :: rest by simp [escapeList]]
    rw [pStr.eq_def]
    simp
  | cons c tl ih =>
    intro rest
    by_cases hq : c = '"'
    · subst hq
      simp only [escapeList, escapeChar, if_pos rfl, List.cons_append, List.append_assoc]
      rw [pStr.eq_def]
      simp [ih]
    · by_cases hb : c = '\\'
      · subst hb
        simp only [escapeList, escapeChar, if_neg (by decide : ¬ ('\\' : Char) = '"'),
          if_pos rfl, List.cons_append, List.append_assoc]
        rw [pStr.eq_def]
        simp [ih]
      · by_cases hctl : c.toNat < 32
        · have hv16 : c.toNat / 16 < 16 := by omega
          have hv16' : c.toNat % 16 < 16 := by omega
          have hval : c.toNat / 16 * 16 + c.toNat % 16 = c.toNat := by omega
          have hval2 : ((0 * 16 + 0) * 16 + c.toNat / 16) * 16 + c.toNat % 16 = c.toNat := by
            omega
          simp only [escapeList, escapeChar, if_neg hq, if_neg hb, if_pos hctl,
            List.cons_append, List.append_assoc]
          rw [pStr.eq_def]
          simp [hexVal_hexChar _ hv16, hexVal_hexChar _ hv16',
            show hexVal '0' = some 0 from by decide, hval, hval2, ih,
            show c.toNat < 55296 by omega, Char.ofNat_toNat]
        · simp only [escapeList, escapeChar, if_neg hq, if_neg hb, if_neg hctl,
            List.cons_append, List.append_assoc, List.nil_append]
          rw [pStr.eq_def]
          simp [hq, hb, hctl, ih]

theorem natChars_cons (m : Nat) : ∃ c t, natChars m = c :: t := by
  cases h : natChars m with
  | nil => exact absurd h (natChars_ne_nil _)
  | cons c t => exact ⟨c, t, rfl⟩

theorem isDigitC_head_ne {c : Char} (hc : isDigitC c = true) :
    c ≠ 'n' ∧ c ≠ 't' ∧ c ≠ 'f' ∧ c ≠ '"' ∧ c ≠ '[' ∧ c ≠ '\x7b' ∧ c ≠ '-' ∧ c ≠ ']' := by
  have hcd := isDigitC_toNat hc
  refine ⟨?_, ?_, ?_, ?_, ?_, ?_, ?_, ?_⟩ <;> (intro he; subst he; revert hcd; decide)

theorem pVal_renderInt (f : Nat) (m : Int) (rest : List Char) (hr : headNotDigit rest = true) :
    pVal (f + 1) (renderInt m ++ rest) = some (.num m, rest) := by
  by_cases hneg : m < 0
  · rw [renderInt, if_pos hneg]
    simp only [List.cons_append, pVal,
      if_neg (by decide : ¬ ('-' : Char) = 'n'), if_neg (by decide : ¬ ('-' : Char) = 't'),
      if_neg (by decide : ¬ ('-' : Char) = 'f'), if_neg (by decide : ¬ ('-' : Char) = '"'),
      if_neg (by decide : ¬ ('-' : Char) = '['), if_neg (by decide : ¬ ('-' : Char) = '\x7b'),
      if_pos rfl, if_true, List.append_eq]
    rw [pDigits_natChars _ _ hr]
    have hcast : (((-m).toNat : Int)) = -m := Int.toNat_of_nonneg (by omega)
    simp [hcast]
  · rw [renderInt, if_neg hneg]
    obtain ⟨c, t, hct⟩ := natChars_cons m.toNat
    have hc : isDigitC c = true := natChars_digits (by rw [hct]; simp)
    have hne := isDigitC_head_ne hc
    rw [hct]
    simp only [List.cons_append, pVal, if_neg hne.1, if_neg hne.2.1, if_neg hne.2.2.1,
      if_neg hne.2.2.2.1, if_neg hne.2.2.2.2.1, if_neg hne.2.2.2.2.2.1,
      if_neg hne.2.2.2.2.2.2.1, if_pos hc, List.append_eq]
    rw [show (c :: (t ++ rest)) = natChars m.toNat ++ rest by rw [hct]; simp]
    rw [pDigits_natChars _ _ hr]
    have hcast : ((m.toNat : Int)) = m := Int.toNat_of_nonneg (by omega)
    simp [hcast]

theorem string_mk_data (s : String) : String.mk s.data = s := by
  cases s
  rfl

theorem renderJson_ne_nil : ∀ j : Json, renderJson j ≠ [] := by
  intro j
  cases j with
  | null => simp [renderJson]
  | bool b => cases b <;> simp [renderJson]
  | num n =>
    simp only [renderJson, renderInt]
    split_ifs
    · simp
    · exact natChars_ne_nil _
  | str s => simp [renderJson, renderStrLit]
  | arr xs => simp [renderJson]
  | obj fs => simp [renderJson]

theorem renderJson_head_ne : ∀ (j : Json) (c : Char) (t : List Char),
    renderJson j = c :: t → c ≠ ']' := by
  intro j c t hj
  cases j with
  | null => simp [renderJson] at hj; rcases hj with ⟨rfl, _⟩; decide
  | bool b =>
    cases b <;> simp [renderJson] at hj <;> (rcases hj with ⟨rfl, _⟩; decide)
  | num n =>
    simp only [renderJson, renderInt] at hj
    split_ifs at hj with hneg
    · cases hj
      decide
    · have hc : isDigitC c = true := natChars_digits (by rw [hj]; simp)
      exact (isDigitC_head_ne hc).2.2.2.2.2.2.2
  | str s => simp [renderJson, renderStrLit] at hj; rcases hj with ⟨rfl, _⟩; decide
  | arr xs => simp [renderJson] at hj; rcases hj with ⟨rfl, _⟩; decide
  | obj fs => simp [renderJson] at hj; rcases hj with ⟨rfl, _⟩; decide

theorem headNotDigit_renderArrRest (xs : List Json) (rest : List Char) :
    headNotDigit (renderArrRest xs ++ ']' :: rest) = true := by
  cases xs <;> rfl

theorem headNotDigit_renderObjRest (fs : List (String × Json)) (rest : List Char) :
    headNotDigit (renderObjRest fs ++ '\x7d' :: rest) = true := by
  cases fs with
  | nil => rfl
  | cons p fs => obtain ⟨k, v⟩ := p; rfl

theorem parse_render_all : ∀ f : Nat,
    (∀ j rest, jsize j ≤ f → headNotDigit rest = true →
      pVal f (renderJson j ++ rest) = some (j, rest))
    ∧ (∀ xs rest, jsizeL xs + 1 ≤ f →
      pArrRest f (renderArrRest xs ++ ']' :: rest) = some (xs, rest))
    ∧ (∀ fs rest, jsizeO fs + 1 ≤ f →
      pObjRest f (renderObjRest fs ++ '\x7d' :: rest) = some (fs, rest)) := by
  intro f
  induction f with
  | zero =>
    refine ⟨?_, ?_, ?_⟩
    · intro j rest hsz hr
      exact absurd hsz (by have := jsize_pos j; omega)
    · intro xs rest hsz
      exact absurd hsz (by omega)
    · intro fs rest hsz
      exact absurd hsz (by omega)
  | succ f ih =>
    obtain ⟨ihA, ihB, ihC⟩ := ih
    refine ⟨?_, ?_, ?_⟩
    · intro j rest hsz hr
      cases j with
      | null =>
        simp only [renderJson, List.cons_append, List.nil_append]
        simp only [pVal]
        simp
      | bool b =>
        cases b <;>
          (simp only [renderJson, List.cons_append, List.nil_append];
           simp only [pVal];
           simp)
      | num n => exact pVal_renderInt f n rest hr
      | str s =>
        simp only [renderJson, renderStrLit, List.cons_append, List.append_assoc,
          List.nil_append]
        simp only [pVal]
        simp [pStr_escape, string_mk_data]
      | arr xs =>
        cases xs with
        | nil =>
          simp only [renderJson, renderArr, List.cons_append, List.nil_append]
          simp only [pVal]
          simp
        | cons x xs =>
          have hs1 : 1 + (jsize x + jsizeL xs) ≤ f + 1 := by
            simpa [jsize, jsizeL] using hsz
          have hxp := jsize_pos x
          have hx : jsize x ≤ f := by omega
          have hxs : jsizeL xs + 1 ≤ f := by omega
          obtain ⟨c0, t0, hc0⟩ : ∃ c0 t0, renderJson x = c0 :: t0 := by
            cases h : renderJson x with
            | nil => exact absurd h (renderJson_ne_nil x)
            | cons c0 t0 => exact ⟨c0, t0, rfl⟩
          have hne : c0 ≠ ']' := renderJson_head_ne x _ _ hc0
          simp only [renderJson, renderArr, List.cons_append, List.append_assoc,
            List.nil_append]
          rw [hc0]
          simp only [List.cons_append, pVal,
            if_neg (by decide : ¬ ('[' : Char) = 'n'),
            if_neg (by decide : ¬ ('[' : Char) = 't'),
            if_neg (by decide : ¬ ('[' : Char) = 'f'),
            if_neg (by decide : ¬ ('[' : Char) = '"'),
            if_pos rfl, if_true, List.append_eq, if_neg hne]
          rw [show (c0 :: (t0 ++ (renderArrRest xs ++ ']' :: rest)))
              = renderJson x ++ (renderArrRest xs ++ ']' :: rest) by rw [hc0]; simp]
          rw [ihA x _ hx (headNotDigit_renderArrRest xs rest)]
          simp [ihB xs rest hxs]
      | obj fs =>
        cases fs with
        | nil =>
          simp only [renderJson, renderObj, List.cons_append, List.nil_append]
          simp only [pVal]
          simp
        | cons p fs =>
          obtain ⟨k, v⟩ := p
          have hs1 : 1 + (jsize v + jsizeO fs) ≤ f + 1 := by
            simpa [jsize, jsizeO] using hsz
          have hvp := jsize_pos v
          have hv : jsize v ≤ f := by omega
          have hfs : jsizeO fs + 1 ≤ f := by omega
          simp only [renderJson, renderObj, renderStrLit, List.cons_append,
            List.append_assoc, List.nil_append]
          simp only [pVal,
            if_neg (by decide : ¬ ('\x7b' : Char) = 'n'),
            if_neg (by decide : ¬ ('\x7b' : Char) = 't'),
            if_neg (by decide : ¬ ('\x7b' : Char) = 'f'),
            if_neg (by decide : ¬ ('\x7b' : Char) = '"'),
            if_neg (by decide : ¬ ('\x7b' : Char) = '['),
            if_pos rfl, if_true,
            if_neg (by decide : ¬ ('"' : Char) = '\x7d'), List.append_eq]
          rw [pStr_escape k.data (':' :: (renderJson v ++ (renderObjRest fs ++ '\x7d' :: rest)))]
          simp only []
          rw [ihA v _ hv (headNotDigit_renderObjRest fs rest)]
          simp [ihC fs rest hfs, string_mk_data]
    · intro xs rest hsz
      cases xs with
      | nil =>
        simp only [renderArrRest, List.nil_append]
        simp only [pArrRest]
        simp
      | cons x xs =>
        have hs1 : jsize x + jsizeL xs + 1 ≤ f + 1 := by
          simpa [jsizeL] using hsz
        have hxp := jsize_pos x
        have hx : jsize x ≤ f := by omega
        have hxs : jsizeL xs + 1 ≤ f := by omega
        simp only [renderArrRest, List.cons_append, List.append_assoc]
        simp only [pArrRest,
          if_neg (by decide : ¬ (',' : Char) = ']'), if_pos rfl, if_true, List.append_eq]
        rw [ihA x _ hx (headNotDigit_renderArrRest xs rest)]
        simp [ihB xs rest hxs]
    · intro fs rest hsz
      cases fs with
      | nil =>
        simp only [renderObjRest, List.nil_append]
        simp only [pObjRest]
        simp
      | cons p fs =>
        obtain ⟨k, v⟩ := p
        have hs1 : jsize v + jsizeO fs + 1 ≤ f + 1 := by
          simpa [jsizeO] using hsz
        have hvp := jsize_pos v
        have hv : jsize v ≤ f := by omega
        have hfs : jsizeO fs + 1 ≤ f := by omega
        simp only [renderObjRest, renderStrLit, List.cons_append, List.append_assoc,
          List.nil_append]
        simp only [pObjRest,
          if_neg (by decide : ¬ (',' : Char) = '\x7d'), if_pos rfl, if_true, List.append_eq]
        rw [pStr_escape k.data (':' :: (renderJson v ++ (renderObjRest fs ++ '\x7d' :: rest)))]
        simp only []
        rw [ihA v _ hv (headNotDigit_renderObjRest fs rest)]
        simp [ihC fs rest hfs, string_mk_data]

mutual
theorem jsize_le_renderLen : ∀ j : Json, jsize j ≤ (renderJson j).length
  | .null => by simp [jsize, renderJson]
  | .bool b => by cases b <;> simp [jsize, renderJson]
  | .num n => by
      have h := natChars_ne_nil n.toNat
      have h' := natChars_ne_nil (-n).toNat
      simp only [jsize, renderJson, renderInt]
      split_ifs
      · simp
      · cases hc : natChars n.toNat with
        | nil => exact absurd hc h
        | cons c t => simp [hc]
  | .str s => by simp [jsize, renderJson, renderStrLit]
  | .arr xs => by
      cases xs with
      | nil => simp [jsize, jsizeL, renderJson, renderArr]
      | cons x xs =>
        have h1 := jsize_le_renderLen x
        have h2 := jsizeL_le_renderArrRestLen xs
        simp only [jsize, jsizeL, renderJson, renderArr, List.length_cons,
          List.length_append]
        omega
  | .obj fs => by
      cases fs with
      | nil => simp [jsize, jsizeO, renderJson, renderObj]
      | cons p fs =>
        obtain ⟨k, v⟩ := p
        have h1 := jsize_le_renderLen v
        have h2 := jsizeO_le_renderObjRestLen fs
        simp only [jsize, jsizeO, renderJson, renderObj, List.length_cons,
          List.length_append]
        omega

theorem jsizeL_le_renderArrRestLen : ∀ xs : List Json, jsizeL xs ≤ (renderArrRest xs).length
  | [] => by simp [jsizeL, renderArrRest]
  | x :: xs => by
      have h1 := jsize_le_renderLen x
      have h2 := jsizeL_le_renderArrRestLen xs
      simp only [jsizeL, renderArrRest, List.length_cons, List.length_append]
      omega

theorem jsizeO_le_renderObjRestLen : ∀ fs : List (String × Json),
    jsizeO fs ≤ (renderObjRest fs).length
  | [] => by simp [jsizeO, renderObjRest]
  | (k, v) :: fs => by
      have h1 := jsize_le_renderLen v
      have h2 := jsizeO_le_renderObjRestLen fs
      simp only [jsizeO, renderObjRest, List.length_cons, List.length_append]
      omega
end

/-- Parsing inverts rendering: the compact JSON text of any `Json` tree
parses back to exactly that tree. -/
theorem jsonParse_render (j : Json) : jsonParse ⟨renderJson j⟩ = some j := by
  have hsz : jsize j ≤ (renderJson j).length + 1 := by
    have := jsize_le_renderLen j
    omega
  have hA := (parse_render_all ((renderJson j).length + 1)).1 j [] hsz rfl
  rw [List.append_nil] at hA
  have hd : (String.mk (renderJson j)).data = renderJson j := rfl
  rw [jsonParse, hd, hA]

/-! ## Message model (`src/msg.rs`)

`RequestId(IdRepr)` with `IdRepr` an untagged union of `i32` and `String`;
`Request`/`Response`/`ResponseError`/`Notification` mirror the structs of
`msg.rs` field for field (`i32` is modelled as `Int`; well-formedness
carries the 32-bit range).  `Message` is the untagged union of the three. -/

inductive IdRepr where
  | i32 (n : Int) : IdRepr
  | string (s : String) : IdRepr
  deriving DecidableEq

structure RequestId where
  repr : IdRepr
  deriving DecidableEq

structure Request where
  id : RequestId
  method : String
  params : Json
  deriving DecidableEq

structure ResponseError where
  code : Int
  message : String
  data : Option Json
  deriving DecidableEq

structure Response where
  id : RequestId
  result : Option Json
  error : Option ResponseError
  deriving DecidableEq

structure Notification where
  method : String
  params : Json
  deriving DecidableEq

inductive Message where
  | request (r : Request) : Message
  | response (r : Response) : Message
  | notification (n : Notification) : Message
  deriving DecidableEq

/-- `Request::is_shutdown` (`msg.rs`). -/
def Request.is_shutdown (r : Request) : Bool := r.method = "shutdown"

/-- `Notification::is_exit` (`msg.rs`). -/
def Notification.is_exit (n : Notification) : Bool := n.method = "exit"

/-- `Response::new_ok` (`msg.rs`): success response with the given id and
(already serialized) result value, no error. -/
def Response.new_ok (id : RequestId) (result : Json) : Response :=
  { id := id, result := some result, error := none }

/-- `Response::new_err` (`msg.rs`). -/
def Response.new_err (id : RequestId) (code : Int) (message : String) : Response :=
  { id := id, result := none, error := some { code := code, message := message, data := none } }

/-! ## Serialization to `Json` trees

Modelled from the spec and the serde attributes in `msg.rs`:
struct fields are emitted in declaration order; `params` carries
`skip_serializing_if = "Value::is_null"`, `result`/`error`/`data` carry
`skip_serializing_if = "Option::is_none"`; `RequestId` is `transparent` over
the untagged `IdRepr` (an `i32` serializes as a JSON number, a string as a
JSON string). -/

def serRequestId : RequestId → Json
  | ⟨.i32 n⟩ => .num n
  | ⟨.string s⟩ => .str s

def serRequestFields (r : Request) : List (String × Json) :=
  [("id", serRequestId r.id), ("method", .str r.method)] ++
    (if r.params = .null then [] else [("params", r.params)])

def serResponseError (e : ResponseError) : Json :=
  .obj ([("code", .num e.code), ("message", .str e.message)] ++
    (match e.data with
     | some v => [("data", v)]
     | none => []))

def serResponseFields (r : Response) : List (String × Json) :=
  [("id", serRequestId r.id)] ++
    (match r.result with
     | some v => [("result", v)]
     | none => []) ++
    (match r.error with
     | some e => [("error", serResponseError e)]
     | none => [])

def serNotificationFields (n : Notification) : List (String × Json) :=
  [("method", .str n.method)] ++
    (if n.params = .null then [] else [("params", n.params)])

def messageFields : Message → List (String × Json)
  | .request r => serRequestFields r
  | .response r => serResponseFields r
  | .notification n => serNotificationFields n

/-- `Message::_write`'s `JsonRpc` wrapper: the message's own fields with the
envelope field `jsonrpc = "2.0"` flattened in front (`msg.rs` lines
123-132). -/
def serEnvelope (m : Message) : Json :=
  .obj (("jsonrpc", .str "2.0") :: messageFields m)

/-! ## Deserialization from `Json` trees

Modelled from the spec ("parse into a generic structured tree, then classify
by presence of `id`/`method` fields") and standard serde-derive semantics
for the declarations in `msg.rs`: unknown object fields are ignored, a
missing `Option` field and an explicit JSON `null` both read back as `None`,
an untagged union tries its variants in declaration order, and a struct only
deserializes from a JSON object. -/

def lookupField : List (String × Json) → String → Option Json
  | [], _ => none
  | (k, v) :: fs, key => if k = key then some v else lookupField fs key

/-- The `i32` range check serde applies when deserializing a JSON number
into an `i32` field. -/
def i32InRange (n : Int) : Bool := -2147483648 ≤ n && n ≤ 2147483647

def decodeI32 : Json → Option Int
  | .num n => if i32InRange n then some n else none
  | _ => none

/-- Untagged `IdRepr`: try `i32`, then `String`. -/
def decodeRequestId : Json → Option RequestId
  | .num n => if i32InRange n then some ⟨.i32 n⟩ else none
  | .str s => some ⟨.string s⟩
  | _ => none

/-- An `Option<Value>` field: absent or JSON `null` is `None`, anything else
is `Some`. -/
def readOptField (fs : List (String × Json)) (key : String) : Option Json :=
  match lookupField fs key with
  | none => none
  | some v => if v = .null then none else some v

def decodeResponseError : Json → Option ResponseError
  | .obj fs =>
    match lookupField fs "code" with
    | some cv =>
      match decodeI32 cv with
      | some code =>
        match lookupField fs "message" with
        | some (.str msg) => some { code := code, message := msg, data := readOptField fs "data" }
        | _ => none
      | none => none
    | none => none
  | _ => none

/-- The `error : Option<ResponseError>` field of `Response`: absent or
`null` is `None`; any other value must deserialize as a `ResponseError`. -/
def decodeOptError (fs : List (String × Json)) : Option (Option ResponseError) :=
  match lookupField fs "error" with
  | none => some none
  | some v =>
    if v = .null then some none
    else
      match decodeResponseError v with
      | some e => some (some e)
      | none => none

def decodeRequest : Json → Option Request
  | .obj fs =>
    match lookupField fs "id" with
    | some iv =>
      match decodeRequestId iv with
      | some i =>
        match lookupField fs "method" with
        | some (.str m) =>
          some { id := i, method := m, params := (lookupField fs "params").getD .null }
        | _ => none
      | none => none
    | none => none
  | _ => none

def decodeResponse : Json → Option Response
  | .obj fs =>
    match lookupField fs "id" with
    | some iv =>
      match decodeRequestId iv with
      | some i =>
        match decodeOptError fs with
        | some e => some { id := i, result := readOptField fs "result", error := e }
        | none => none
      | none => none
    | none => none
  | _ => none

def decodeNotification : Json → Option Notification
  | .obj fs =>
    match lookupField fs "method" with
    | some (.str m) => some { method := m, params := (lookupField fs "params").getD .null }
    | _ => none
  | _ => none

/-- Untagged `Message` deserialization: try `Request`, then `Response`, then
`Notification`, in declaration order (`msg.rs` lines 10-16). -/
def decodeMessage (j : Json) : Option Message :=
  match decodeRequest j with
  | some r => some (.request r)
  | none =>
    match decodeResponse j with
    | some r => some (.response r)
    | none =>
      match decodeNotification j with
      | some n => some (.notification n)
      | none => none

/-- Well-formed id: a numeric id fits in `i32` (string ids are always
well-formed). -/
def wfId : RequestId → Bool
  | ⟨.i32 n⟩ => i32InRange n
  | ⟨.string _⟩ => true

/-- Constructible in the Rust model and round-trippable: ids (and error
codes) fit `i32`, and no `Option` field holds an explicit JSON `null`
(`Some(Value::Null)` serializes as `null` and reads back as `None`). -/
def wfMessage : Message → Bool
  | .request r => wfId r.id
  | .response r =>
    wfId r.id &&
      (match r.result with
       | some .null => false
       | _ => true) &&
      (match r.error with
       | some e =>
         i32InRange e.code &&
           (match e.data with
            | some .null => false
            | _ => true)
       | none => true)
  | .notification _ => true

theorem decodeRequestId_ser (i : RequestId) (h : wfId i = true) :
    decodeRequestId (serRequestId i) = some i := by
  obtain ⟨r⟩ := i
  cases r with
  | i32 n => simp [wfId] at h; simp [serRequestId, decodeRequestId, h]
  | string s => simp [serRequestId, decodeRequestId]

theorem decodeResponseError_ser (e : ResponseError) (hc : i32InRange e.code = true)
    (hd : (match e.data with | some .null => false | _ => true) = true) :
    decodeResponseError (serResponseError e) = some e := by
  cases he : e.data with
  | none =>
    simp [serResponseError, decodeResponseError, lookupField, decodeI32, hc, readOptField, he]
    rw [← he]
  | some v =>
    have hv : v ≠ .null := by
      intro hveq
      subst hveq
      rw [he] at hd
      simp at hd
    simp [serResponseError, decodeResponseError, lookupField, decodeI32, hc, readOptField,
      he, hv]
    rw [← he]

/-- Tree-level round trip: deserializing the serialized envelope of a
well-formed message recovers the message (the untagged classification picks
the original variant). -/
theorem decodeMessage_serEnvelope (m : Message) (h : wfMessage m = true) :
    decodeMessage (serEnvelope m) = some m := by
  cases m with
  | request r =>
    have hid : wfId r.id = true := by simpa [wfMessage] using h
    have hreq : decodeRequest (serEnvelope (.request r)) = some r := by
      by_cases hp : r.params = .null
      · simp [serEnvelope, messageFields, serRequestFields, hp, decodeRequest, lookupField,
          decodeRequestId_ser _ hid]
        rw [← hp]
      · simp [serEnvelope, messageFields, serRequestFields, hp, decodeRequest, lookupField,
          decodeRequestId_ser _ hid]
    simp [decodeMessage, hreq]
  | response r =>
    have hid : wfId r.id = true := by
      simp [wfMessage] at h
      exact h.1.1
    have hres : (match r.result with | some .null => false | _ => true) = true := by
      simp only [wfMessage, Bool.and_eq_true] at h
      exact h.1.2
    have herr : (match r.error with
       | some e => i32InRange e.code &&
           (match e.data with | some .null => false | _ => true)
       | none => true) = true := by
      simp only [wfMessage, Bool.and_eq_true] at h
      exact h.2
    have hreq : decodeRequest (serEnvelope (.response r)) = none := by
      cases hr : r.result <;> cases he : r.error <;>
        simp [serEnvelope, messageFields, serResponseFields, decodeRequest, lookupField,
          hr, he] <;>
        cases decodeRequestId (serRequestId r.id) <;> rfl
    have hresp : decodeResponse (serEnvelope (.response r)) = some r := by
      cases hr : r.result with
      | none =>
        cases he : r.error with
        | none =>
          simp [serEnvelope, messageFields, serResponseFields, decodeResponse, lookupField,
            hr, he, decodeRequestId_ser _ hid, decodeOptError, readOptField]
          rw [← hr, ← he]
        | some e =>
          rw [he] at herr
          simp only [Bool.and_eq_true] at herr
          have hser := decodeResponseError_ser e herr.1 herr.2
          have hobj : serResponseError e ≠ .null := by
            simp [serResponseError]
          simp [serEnvelope, messageFields, serResponseFields, decodeResponse, lookupField,
            hr, he, decodeRequestId_ser _ hid, decodeOptError, readOptField, hser, hobj]
          rw [← hr, ← he]
      | some v =>
        have hv : v ≠ .null := by
          intro hveq
          subst hveq
          rw [hr] at hres
          simp at hres
        cases he : r.error with
        | none =>
          simp [serEnvelope, messageFields, serResponseFields, decodeResponse, lookupField,
            hr, he, decodeRequestId_ser _ hid, decodeOptError, readOptField, hv]
          rw [← hr, ← he]
        | some e =>
          rw [he] at herr
          simp only [Bool.and_eq_true] at herr
          have hser := decodeResponseError_ser e herr.1 herr.2
          have hobj : serResponseError e ≠ .null := by
            simp [serResponseError]
          simp [serEnvelope, messageFields, serResponseFields, decodeResponse, lookupField,
            hr, he, decodeRequestId_ser _ hid, decodeOptError, readOptField, hser, hobj, hv]
          rw [← hr, ← he]
    simp [decodeMessage, hreq, hresp]
  | notification n =>
    have hreq : decodeRequest (serEnvelope (.notification n)) = none := by
      by_cases hp : n.params = .null <;>
        simp [serEnvelope, messageFields, serNotificationFields, decodeRequest, lookupField, hp]
    have hresp : decodeResponse (serEnvelope (.notification n)) = none := by
      by_cases hp : n.params = .null <;>
        simp [serEnvelope, messageFields, serNotificationFields, decodeResponse, lookupField, hp]
    have hnot : decodeNotification (serEnvelope (.notification n)) = some n := by
      by_cases hp : n.params = .null
      · simp [serEnvelope, messageFields, serNotificationFields, decodeNotification,
          lookupField, hp]
        rw [← hp]
      · simp [serEnvelope, messageFields, serNotificationFields, decodeNotification,
          lookupField, hp]
    simp [decodeMessage, hreq, hresp, hnot]

/-! ## Frame codec (`read_msg_text` / `write_msg_text`, `msg.rs` 188-233)

The byte stream is a `List Nat`; reading returns the value together with the
unconsumed rest of the stream.  Errors mirror the `io::Error` kinds the
source produces: `invalidData` for every `invalid_data(..)` construction
(malformed header, bad `Content-Length` value, missing `Content-Length`,
invalid UTF-8) and for a JSON deserialization failure surfaced through
`serde_json`, `unexpectedEof` for `read_exact` hitting end of stream. -/

inductive RErr where
  | invalidData : RErr
  | unexpectedEof : RErr
  deriving DecidableEq

/-- `BufRead::read_line` splitting: everything up to and including the first
`0x0A` byte (or the whole stream if none), plus the rest. -/
def takeLine : List Nat → List Nat × List Nat
  | [] => ([], [])
  | b :: bs =>
    if b = 10 then ([10], bs)
    else
      let r := takeLine bs
      (b :: r.1, r.2)

/-- `buf.ends_with("\r\n")`. -/
def endsWithCRLF (l : List Char) : Bool :=
  match l.reverse with
  | '\n' :: '\r' :: _ => true
  | _ => false

/-- `&buf[..buf.len() - 2]` (only taken on lines known to end in CRLF). -/
def dropCRLF (l : List Char) : List Char := l.dropLast.dropLast

/-- `splitn(2, ": ")` on a header line: split at the first `": "` occurrence;
`none` when the separator does not occur (the `ok_or_else` error path). -/
def splitHeader : List Char → Option (List Char × List Char)
  | [] => none
  | [_] => none
  | c1 :: c2 :: rest =>
    if c1 = ':' ∧ c2 = ' ' then some ([], rest)
    else
      match splitHeader (c2 :: rest) with
      | some (a, b) => some (c1 :: a, b)
      | none => none

/-- The header loop of `read_msg_text` (`msg.rs` 198-217): read CRLF lines,
tracking the last `Content-Length` value, until the empty line; end of
stream at a line boundary is the normal no-more-messages result.
Structurally fueled; `readHeaders` instantiates the fuel with the stream
length, which always suffices because `read_line` consumes at least one
byte. -/
def readHeadersGo : Nat → Option Nat → List Nat → Except RErr (Option (Option Nat × List Nat))
  | 0, _, _ => .error .invalidData
  | _ + 1, sz, [] => .ok none
  | fuel + 1, sz, b :: bs =>
    let line := takeLine (b :: bs)
    match utf8DecodeList line.1 with
    | none => .error .invalidData
    | some cs =>
      if endsWithCRLF cs then
        let core := dropCRLF cs
        if core = [] then .ok (some (sz, line.2))
        else
          match splitHeader core with
          | none => .error .invalidData
          | some (name, value) =>
            if name = "Content-Length".data then
              match parseUsizeChars value with
              | none => .error .invalidData
              | some n => readHeadersGo fuel (some n) line.2
            else readHeadersGo fuel sz line.2
      else .error .invalidData

def readHeaders (sz : Option Nat) (stream : List Nat) :
    Except RErr (Option (Option Nat × List Nat)) :=
  readHeadersGo (stream.length + 1) sz stream

/-- `read_msg_text` (`msg.rs` 188-225): parse the header block, then read
exactly `Content-Length` bytes and UTF-8-decode them.  Returns the payload
text and the unconsumed stream; `ok none` is the normal end-of-stream
result. -/
def read_msg_text (stream : List Nat) : Except RErr (Option (String × List Nat)) :=
  match readHeaders none stream with
  | .error e => .error e
  | .ok none => .ok none
  | .ok (some (none, _)) => .error .invalidData
  | .ok (some (some n, rest)) =>
    if rest.length < n then .error .unexpectedEof
    else
      match utf8DecodeList (rest.take n) with
      | none => .error .invalidData
      | some cs => .ok (some (⟨cs⟩, rest.drop n))

/-- `Message::read` / `Message::_read` (`msg.rs` 109-119): read one frame,
then `serde_json::from_str` the payload into the untagged `Message`. -/
def Message.read (stream : List Nat) : Except RErr (Option (Message × List Nat)) :=
  match read_msg_text stream with
  | .error e => .error e
  | .ok none => .ok none
  | .ok (some (text, rest)) =>
    match jsonParse text with
    | none => .error .invalidData
    | some j =>
      match decodeMessage j with
      | none => .error .invalidData
      | some m => .ok (some (m, rest))

/-- One observable action of `write_msg_text` on its sink: a chunk of bytes
written, or a flush. -/
inductive WriteEvent where
  | data (bytes : List Nat) : WriteEvent
  | flush : WriteEvent
  deriving DecidableEq

/-- `write_msg_text` (`msg.rs` 227-233): the header (with `msg.len()`, the
byte length of the payload), the payload bytes, then a flush. -/
def write_msg_text (msg : String) : List WriteEvent :=
  [.data (utf8Encode ("Content-Length: " ++ natRepr (utf8Encode msg).length ++ "\r\n\r\n")),
   .data (utf8Encode msg),
   .flush]

/-- The JSON text `Message::_write` produces: the message serialized with the
`jsonrpc = "2.0"` envelope field merged in. -/
def Message.writeText (m : Message) : String := ⟨renderJson (serEnvelope m)⟩

/-- `Message::write` / `Message::_write` (`msg.rs` 120-132). -/
def Message.write (m : Message) : List WriteEvent := write_msg_text (Message.writeText m)

/-- The bytes a sequence of write events puts on the wire. -/
def outBytes : List WriteEvent → List Nat
  | [] => []
  | .data bs :: evs => bs ++ outBytes evs
  | .flush :: evs => outBytes evs

/-- All bytes `Message::write` emits for `m`. -/
def Message.writeBytes (m : Message) : List Nat := outBytes (Message.write m)

/-! ## Connection and the shutdown handshake (`src/connection.rs`) -/

/-- `crossbeam_channel::RecvTimeoutError`. -/
inductive RecvTimeoutError where
  | timeout : RecvTimeoutError
  | disconnected : RecvTimeoutError
  deriving DecidableEq

/-- What `receiver.recv_timeout(d)` yields for a given timeout `d`
(in seconds): a message, or a timeout/disconnect error. -/
inductive RecvOutcome where
  | received (m : Message) : RecvOutcome
  | failed (e : RecvTimeoutError) : RecvOutcome
  deriving DecidableEq

/-- `ProtocolError` (`connection.rs` 19).  The source wraps a formatted
string; the model keeps the structured payload the two `format!` calls
embed: the unexpected message, or the receive error. -/
inductive ProtocolError where
  | unexpectedMessage (m : Message) : ProtocolError
  | recvError (e : RecvTimeoutError) : ProtocolError
  deriving DecidableEq

/-- The 30-second bound of `Duration::from_secs(30)` in `handle_shutdown`
(`connection.rs` 171). -/
def shutdownTimeout : Nat := 30

/-- `Connection::handle_shutdown` (`connection.rs` 165-179).  The connection's
inbound side is modelled by `recv`, the behavior of
`receiver.recv_timeout` as a function of the timeout in seconds; the
outbound side by the returned list of sent messages (the source ignores the
send result, `let _ = self.sender.send(..)`). -/
def handle_shutdown (recv : Nat → RecvOutcome) (req : Request) :
    List Message × Except ProtocolError Bool :=
  if ¬ req.is_shutdown then ([], .ok false)
  else
    ([Message.response (Response.new_ok req.id .null)],
     match recv shutdownTimeout with
     | .received (Message.notification n) =>
       if n.is_exit then .ok true
       else .error (.unexpectedMessage (Message.notification n))
     | .received msg => .error (.unexpectedMessage msg)
     | .failed e => .error (.recvError e))

/-! ## Frame codec lemmas -/

theorem takeLine_append (l : List Nat) (rest : List Nat) (h : 10 ∉ l) :
    takeLine (l ++ 10 :: rest) = (l ++ [10], rest) := by
  induction l with
  | nil => simp [takeLine]
  | cons b bs ih =>
    have hb : b ≠ 10 := by intro he; exact h (by simp [he])
    have hbs : 10 ∉ bs := fun hm => h (by simp [hm])
    simp only [List.cons_append, takeLine, if_neg hb, List.append_eq, ih hbs]

theorem takeLine_all (l : List Nat) (h : 10 ∉ l) : takeLine l = (l, []) := by
  induction l with
  | nil => simp [takeLine]
  | cons b bs ih =>
    have hb : b ≠ 10 := by intro he; exact h (by simp [he])
    have hbs : 10 ∉ bs := fun hm => h (by simp [hm])
    simp only [takeLine, if_neg hb, ih hbs]

theorem takeLine_consumes : ∀ (bs : List Nat), bs ≠ [] →
    (takeLine bs).2.length < bs.length := by
  intro bs
  induction bs with
  | nil => intro h; exact absurd rfl h
  | cons b bs ih =>
    intro _
    by_cases hb : b = 10
    · simp [takeLine, hb]
    · simp only [takeLine, if_neg hb]
      cases hbs : bs with
      | nil => simp [takeLine, hbs]
      | cons c cs =>
        have := ih (by simp [hbs])
        rw [hbs] at this
        simpa using Nat.lt_trans this (by simp)

theorem utf8EncodeChar_mem_lf {c : Char} (h : (10 : Nat) ∈ utf8EncodeChar c) : c = '\n' := by
  have hn : ('\n' : Char).toNat = 10 := by decide
  unfold utf8EncodeChar at h
  dsimp only at h
  split_ifs at h <;> simp at h <;>
    first
    | (apply char_toNat_inj; omega)
    | omega

theorem utf8EncodeList_no_lf {l : List Char} (h : '\n' ∉ l) :
    (10 : Nat) ∉ utf8EncodeList l := by
  induction l with
  | nil => simp [utf8EncodeList]
  | cons c cs ih =>
    simp only [utf8EncodeList, List.mem_append]
    intro hm
    rcases hm with hm | hm
    · exact h (by rw [utf8EncodeChar_mem_lf hm]; simp)
    · exact ih (fun hx => h (by simp [hx])) hm

theorem readHeadersGo_irrel : ∀ f g sz stream, stream.length < f → stream.length < g →
    readHeadersGo f sz stream = readHeadersGo g sz stream := by
  intro f
  induction f with
  | zero => intro g sz stream hf hg; omega
  | succ f ih =>
    intro g sz stream hf hg
    obtain ⟨g', rfl⟩ : ∃ g', g = g' + 1 := ⟨g - 1, by omega⟩
    cases stream with
    | nil => rfl
    | cons b bs =>
      simp only [readHeadersGo]
      have hcons := takeLine_consumes (b :: bs) (by simp)
      simp only [List.length_cons] at hcons
      cases utf8DecodeList (takeLine (b :: bs)).1 with
      | none => rfl
      | some cs =>
        dsimp only
        by_cases hcrlf : endsWithCRLF cs = true
        · rw [if_pos hcrlf, if_pos hcrlf]
          by_cases hcore : dropCRLF cs = []
          · rw [if_pos hcore, if_pos hcore]
          · rw [if_neg hcore, if_neg hcore]
            cases splitHeader (dropCRLF cs) with
            | none => rfl
            | some p =>
              obtain ⟨name, value⟩ := p
              dsimp only
              by_cases hname : name = "Content-Length".data
              · rw [if_pos hname, if_pos hname]
                cases parseUsizeChars value with
                | none => rfl
                | some n =>
                  dsimp only
                  simp only [List.length_cons] at hf hg
                  exact ih g' (some n) _ (by omega) (by omega)
              · rw [if_neg hname, if_neg hname]
                simp only [List.length_cons] at hf hg
                exact ih g' sz _ (by omega) (by omega)
        · rw [if_neg hcrlf, if_neg hcrlf]

theorem readHeaders_nil (sz : Option Nat) : readHeaders sz [] = .ok none := rfl

theorem endsWithCRLF_crlf (l : List Char) : endsWithCRLF (l ++ ['\r', '\n']) = true := by
  simp [endsWithCRLF, List.reverse_append]

theorem dropCRLF_crlf (l : List Char) : dropCRLF (l ++ ['\r', '\n']) = l := by
  show (l ++ ['\r', '\n']).dropLast.dropLast = l
  rw [show l ++ ['\r', '\n'] = (l ++ ['\r']) ++ ['\n'] by simp]
  rw [List.dropLast_concat, List.dropLast_concat]

/-- One iteration of the header loop: a complete CRLF-terminated line at the
head of the stream is consumed; an empty line ends the block, a
`Content-Length` header updates the tracked size, any other well-formed
header is ignored, and a line with no `": "` separator or a bad
`Content-Length` value is a framing error. -/
theorem readHeaders_step (sz : Option Nat) (l : List Char) (rest : List Nat)
    (hl : '\n' ∉ l) :
    readHeaders sz (utf8EncodeList (l ++ ['\r', '\n']) ++ rest) =
      (if l = [] then .ok (some (sz, rest))
       else
         match splitHeader l with
         | none => .error .invalidData
         | some (name, value) =>
           if name = "Content-Length".data then
             match parseUsizeChars value with
             | none => .error .invalidData
             | some n => readHeaders (some n) rest
           else readHeaders sz rest) := by
  have henc : utf8EncodeList (l ++ ['\r', '\n']) = utf8EncodeList l ++ [13, 10] := by
    rw [utf8EncodeList_append]; rfl
  have h10 : (10 : Nat) ∉ utf8EncodeList l ++ [13] := by
    simp only [List.mem_append, List.mem_singleton]
    rintro (hm | hm)
    · exact utf8EncodeList_no_lf hl hm
    · omega
  have hstream : utf8EncodeList (l ++ ['\r', '\n']) ++ rest
      = (utf8EncodeList l ++ [13]) ++ (10 :: rest) := by
    rw [henc]; simp
  have htake : takeLine ((utf8EncodeList l ++ [13]) ++ 10 :: rest)
      = ((utf8EncodeList l ++ [13]) ++ [10], rest) := takeLine_append _ _ h10
  have hline1 : (utf8EncodeList l ++ [13]) ++ [10] = utf8EncodeList (l ++ ['\r', '\n']) := by
    rw [henc]; simp
  have hdec : utf8DecodeList ((utf8EncodeList l ++ [13]) ++ [10])
      = some (l ++ ['\r', '\n']) := by
    rw [hline1]; exact utf8DecodeList_encode _
  obtain ⟨b, bs, hcons⟩ : ∃ b bs, (utf8EncodeList l ++ [13]) ++ 10 :: rest = b :: bs := by
    cases h : (utf8EncodeList l ++ [13]) ++ 10 :: rest with
    | nil => exact absurd h (by simp)
    | cons b bs => exact ⟨b, bs, rfl⟩
  have hlen : rest.length < (b :: bs).length := by
    rw [← hcons]
    simp
    omega
  rw [hstream, hcons]
  unfold readHeaders
  simp only [readHeadersGo]
  rw [← hcons, htake]
  dsimp only
  rw [hdec]
  dsimp only
  rw [if_pos (endsWithCRLF_crlf l), dropCRLF_crlf]
  by_cases hempty : l = []
  · rw [if_pos hempty, if_pos hempty]
  · rw [if_neg hempty, if_neg hempty]
    cases splitHeader l with
    | none => rfl
    | some p =>
      obtain ⟨name, value⟩ := p
      dsimp only
      by_cases hname : name = "Content-Length".data
      · rw [if_pos hname, if_pos hname]
        cases parseUsizeChars value with
        | none => rfl
        | some n =>
          dsimp only
          exact readHeadersGo_irrel _ _ (some n) rest (by simp; omega) (by omega)
      · rw [if_neg hname, if_neg hname]
        exact readHeadersGo_irrel _ _ sz rest (by simp; omega) (by omega)

/-- `true` when the list contains the two-character separator `": "`. -/
def hasSep : List Char → Bool
  | [] => false
  | [_] => false
  | c1 :: c2 :: rest => (c1 = ':' && c2 = ' ') || hasSep (c2 :: rest)

theorem splitHeader_no_sep : ∀ (a : List Char), hasSep a = false →
    ∀ b, splitHeader (a ++ ':' :: ' ' :: b) = some (a, b) := by
  intro a
  induction a with
  | nil => intro h b; simp [splitHeader]
  | cons c rest ih =>
    intro h b
    cases rest with
    | nil =>
      simp only [List.cons_append, List.nil_append, splitHeader,
        if_neg (by simp : ¬(c = ':' ∧ (':' : Char) = ' '))]
      simp
    | cons r0 rest' =>
      have hns : ¬(c = ':' ∧ r0 = ' ') := by
        intro ⟨h1, h2⟩
        subst h1; subst h2
        simp [hasSep] at h
      have hrest : hasSep (r0 :: rest') = false := by
        cases hx : hasSep (r0 :: rest') with
        | false => rfl
        | true => rw [show (c :: r0 :: rest') = [c] ++ (r0 :: rest') by simp] at h
                  simp [hasSep, hx] at h
      simp only [List.cons_append, splitHeader, if_neg hns, List.append_eq]
      rw [show r0 :: (rest' ++ ':' :: ' ' :: b) = (r0 :: rest') ++ ':' :: ' ' :: b by simp]
      rw [ih hrest b]

theorem lf_not_mem_natChars (n : Nat) : '\n' ∉ natChars n := by
  intro h
  have := natChars_digits h
  simp [isDigitC] at this

/-- A full `Content-Length: n` header line sets the tracked size to `n`. -/
theorem readHeaders_cl (sz : Option Nat) (n : Nat) (rest : List Nat) :
    readHeaders sz
        (utf8EncodeList (("Content-Length: ").data ++ natChars n ++ ['\r', '\n']) ++ rest)
      = readHeaders (some n) rest := by
  have hl : '\n' ∉ ("Content-Length: ").data ++ natChars n := by
    simp only [List.mem_append]
    rintro (hm | hm)
    · revert hm; decide
    · exact lf_not_mem_natChars n hm
  have hsplit : splitHeader (("Content-Length: ").data ++ natChars n)
      = some (("Content-Length").data, natChars n) := by
    rw [show ("Content-Length: ").data = ("Content-Length").data ++ [':', ' '] from by decide,
      List.append_assoc]
    exact splitHeader_no_sep _ (by decide) _
  rw [show ("Content-Length: ").data ++ natChars n ++ ['\r', '\n']
      = (("Content-Length: ").data ++ natChars n) ++ ['\r', '\n'] by simp]
  rw [readHeaders_step sz _ rest hl]
  rw [if_neg (by simp [natChars_ne_nil] : ¬ ("Content-Length: ").data ++ natChars n = [])]
  rw [hsplit]
  dsimp only
  rw [if_pos rfl, parseUsizeChars_natChars]

/-- The empty line ends the header block. -/
theorem readHeaders_empty (sz : Option Nat) (rest : List Nat) :
    readHeaders sz (utf8EncodeList ['\r', '\n'] ++ rest) = .ok (some (sz, rest)) := by
  have h := readHeaders_step sz [] rest (by simp)
  simpa using h

instance {ε α : Type} [DecidableEq ε] [DecidableEq α] : DecidableEq (Except ε α) := fun a b =>
  match a, b with
  | .ok x, .ok y => decidable_of_iff (x = y) (by simp)
  | .error e, .error f => decidable_of_iff (e = f) (by simp)
  | .ok _, .error _ => isFalse (by simp)
  | .error _, .ok _ => isFalse (by simp)

theorem utf8Encode_append (a b : String) :
    utf8Encode (a ++ b) = utf8Encode a ++ utf8Encode b := by
  unfold utf8Encode
  rw [String.data_append, utf8EncodeList_append]

theorem writeBytes_eq (m : Message) :
    Message.writeBytes m
      = utf8EncodeList ("Content-Length: ".data
            ++ natChars (utf8Encode (Message.writeText m)).length ++ ['\r', '\n'])
        ++ (utf8EncodeList ['\r', '\n'] ++ utf8Encode (Message.writeText m)) := by
  show outBytes (write_msg_text (Message.writeText m)) = _
  set text := Message.writeText m with htext
  set N := (utf8Encode text).length with hN
  unfold write_msg_text
  simp only [outBytes, List.append_nil]
  have hdata : ("Content-Length: " ++ natRepr N ++ "\r\n\r\n" : String).data
      = ("Content-Length: ".data ++ natChars N ++ ['\r', '\n']) ++ ['\r', '\n'] := by
    have h4 : ("\r\n\r\n" : String).data = ['\r', '\n'] ++ ['\r', '\n'] := by decide
    rw [String.data_append, String.data_append, h4, natRepr]
    show ("Content-Length: ".data ++ natChars N) ++ (['\r', '\n'] ++ ['\r', '\n']) = _
    simp [List.append_assoc]
  show utf8EncodeList ("Content-Length: " ++ natRepr N ++ "\r\n\r\n" : String).data
      ++ utf8EncodeList text.data = _
  rw [hdata, utf8EncodeList_append]
  simp [utf8Encode, hN]

theorem read_write_roundtrip (m : Message) (h : wfMessage m = true) :
    Message.read (Message.writeBytes m) = .ok (some (m, [])) := by
  set text := Message.writeText m with htext
  set N := (utf8Encode text).length with hN
  have hrmt : read_msg_text (Message.writeBytes m) = .ok (some (text, [])) := by
    rw [writeBytes_eq]
    unfold read_msg_text
    rw [readHeaders_cl, readHeaders_empty]
    dsimp only
    rw [if_neg (by omega : ¬ (utf8Encode text).length < N)]
    rw [← hN, List.take_length]
    rw [show utf8Encode text = utf8EncodeList text.data from rfl]
    rw [utf8DecodeList_encode]
    dsimp only
    rw [string_mk_data]
    rw [show N = (utf8EncodeList text.data).length from hN, List.drop_length]
  unfold Message.read
  rw [hrmt]
  dsimp only
  rw [show text = (⟨renderJson (serEnvelope m)⟩ : String) from rfl, jsonParse_render]
  dsimp only
  rw [decodeMessage_serEnvelope m h]

/-- A header line that does not end in CRLF (including a truncated final
line with no newline at all) is a framing error, at any point of the header
block. -/
theorem readHeaders_bad_line (sz : Option Nat) (stream lb rest : List Nat) (cs : List Char)
    (hne : stream ≠ []) (htake : takeLine stream = (lb, rest))
    (hdec : utf8DecodeList lb = some cs) (hcrlf : endsWithCRLF cs = false) :
    readHeaders sz stream = .error .invalidData := by
  cases stream with
  | nil => exact absurd rfl hne
  | cons b bs =>
    unfold readHeaders
    simp only [readHeadersGo]
    rw [htake]
    dsimp only
    rw [hdec]
    dsimp only
    rw [if_neg (by simp [hcrlf])]

/-- A non-empty header line with no `": "` separator is a framing error. -/
theorem readHeaders_no_sep (sz : Option Nat) (l : List Char) (rest : List Nat)
    (hl : '\n' ∉ l) (hne : l ≠ []) (hsplit : splitHeader l = none) :
    readHeaders sz (utf8EncodeList (l ++ ['\r', '\n']) ++ rest) = .error .invalidData := by
  rw [readHeaders_step sz l rest hl, if_neg hne, hsplit]

/-- A `Content-Length` whose value the `usize` parser rejects is a framing
error. -/
theorem readHeaders_bad_cl (sz : Option Nat) (value : List Char) (rest : List Nat)
    (hv : '\n' ∉ value) (hparse : parseUsizeChars value = none) :
    readHeaders sz
        (utf8EncodeList (("Content-Length: ").data ++ value ++ ['\r', '\n']) ++ rest)
      = .error .invalidData := by
  have hl : '\n' ∉ ("Content-Length: ").data ++ value := by
    simp only [List.mem_append]
    rintro (hm | hm)
    · revert hm; decide
    · exact hv hm
  have hsplit : splitHeader (("Content-Length: ").data ++ value)
      = some (("Content-Length").data, value) := by
    rw [show ("Content-Length: ").data = ("Content-Length").data ++ [':', ' '] from by decide,
      List.append_assoc]
    exact splitHeader_no_sep _ (by decide) _
  rw [show ("Content-Length: ").data ++ value ++ ['\r', '\n']
      = (("Content-Length: ").data ++ value) ++ ['\r', '\n'] by simp]
  rw [readHeaders_step sz _ rest hl]
  rw [if_neg (by simp : ¬ ("Content-Length: ").data ++ value = [])]
  rw [hsplit]
  dsimp only
  rw [if_pos rfl, hparse]

/-- The byte stream of a sequence of CRLF-terminated header lines. -/
def encodeLines : List (List Char) → List Nat
  | [] => []
  | l :: ls => utf8EncodeList (l ++ ['\r', '\n']) ++ encodeLines ls

/-- A header block that never reaches the empty terminating line (the stream
ends cleanly after some complete non-empty header lines) is never a frame:
the loop either hits a malformed line (a framing error) or reaches end of
stream, the normal no-more-messages result. -/
theorem readHeaders_truncated : ∀ (ls : List (List Char)) (sz : Option Nat),
    (∀ l ∈ ls, '\n' ∉ l ∧ l ≠ []) →
    readHeaders sz (encodeLines ls) = .ok none
    ∨ readHeaders sz (encodeLines ls) = .error .invalidData := by
  intro ls
  induction ls with
  | nil => intro sz _; left; rfl
  | cons l ls ih =>
    intro sz hwf
    obtain ⟨hl, hne⟩ := hwf l (by simp)
    have hrest : ∀ l' ∈ ls, '\n' ∉ l' ∧ l' ≠ [] := fun l' hm => hwf l' (by simp [hm])
    rw [encodeLines, readHeaders_step sz l (encodeLines ls) hl, if_neg hne]
    cases hsplit : splitHeader l with
    | none => right; rfl
    | some p =>
      obtain ⟨name, value⟩ := p
      dsimp only
      by_cases hname : name = "Content-Length".data
      · rw [if_pos hname]
        cases hparse : parseUsizeChars value with
        | none => right; rfl
        | some n => exact ih (some n) hrest
      · rw [if_neg hname]
        exact ih sz hrest

/-- A header-loop error is the whole read's error. -/
theorem read_msg_text_error (stream : List Nat) (e : RErr)
    (h : readHeaders none stream = .error e) : read_msg_text stream = .error e := by
  unfold read_msg_text
  rw [h]

/-- Reaching the empty line with no `Content-Length` seen is a framing
error. -/
theorem read_msg_text_no_cl (stream : List Nat) (rest : List Nat)
    (h : readHeaders none stream = .ok (some (none, rest))) :
    read_msg_text stream = .error .invalidData := by
  unfold read_msg_text
  rw [h]

/-- End of stream at a header boundary is the no-more-messages result. -/
theorem read_msg_text_eos (stream : List Nat)
    (h : readHeaders none stream = .ok none) : read_msg_text stream = .ok none := by
  unfold read_msg_text
  rw [h]

theorem lookupField_drop_jsonrpc (fs1 fs2 : List (String × Json)) (v : Json) (key : String)
    (hk : key ≠ "jsonrpc") :
    lookupField (fs1 ++ ("jsonrpc", v) :: fs2) key = lookupField (fs1 ++ fs2) key := by
  induction fs1 with
  | nil =>
    simp only [List.nil_append, lookupField]
    rw [if_neg (by intro h; exact hk h.symm)]
  | cons p fs1 ih =>
    obtain ⟨k', v'⟩ := p
    simp only [List.cons_append, lookupField, List.append_eq]
    by_cases hkk : k' = key
    · rw [if_pos hkk, if_pos hkk]
    · rw [if_neg hkk, if_neg hkk, ih]

theorem readOptField_drop_jsonrpc (fs1 fs2 : List (String × Json)) (v : Json) (key : String)
    (hk : key ≠ "jsonrpc") :
    readOptField (fs1 ++ ("jsonrpc", v) :: fs2) key = readOptField (fs1 ++ fs2) key := by
  unfold readOptField
  rw [lookupField_drop_jsonrpc fs1 fs2 v key hk]

theorem decodeMessage_drop_jsonrpc (fs1 fs2 : List (String × Json)) (v : Json) :
    decodeMessage (.obj (fs1 ++ ("jsonrpc", v) :: fs2)) = decodeMessage (.obj (fs1 ++ fs2)) := by
  have hid := lookupField_drop_jsonrpc fs1 fs2 v "id" (by decide)
  have hmethod := lookupField_drop_jsonrpc fs1 fs2 v "method" (by decide)
  have hparams := lookupField_drop_jsonrpc fs1 fs2 v "params" (by decide)
  have herror := lookupField_drop_jsonrpc fs1 fs2 v "error" (by decide)
  have hresult := readOptField_drop_jsonrpc fs1 fs2 v "result" (by decide)
  have hreq : decodeRequest (.obj (fs1 ++ ("jsonrpc", v) :: fs2))
      = decodeRequest (.obj (fs1 ++ fs2)) := by
    simp only [decodeRequest]
    rw [hid, hmethod, hparams]
  have hresp : decodeResponse (.obj (fs1 ++ ("jsonrpc", v) :: fs2))
      = decodeResponse (.obj (fs1 ++ fs2)) := by
    simp only [decodeResponse, decodeOptError]
    rw [hid, herror, hresult]
  have hnot : decodeNotification (.obj (fs1 ++ ("jsonrpc", v) :: fs2))
      = decodeNotification (.obj (fs1 ++ fs2)) := by
    simp only [decodeNotification]
    rw [hmethod, hparams]
  unfold decodeMessage
  rw [hreq, hresp, hnot]

/-- A well-formed header line whose name is not exactly `Content-Length` is
consumed and ignored. -/
theorem readHeaders_ignored (sz : Option Nat) (name value : List Char) (rest : List Nat)
    (hsep : hasSep name = false) (hname : name ≠ "Content-Length".data)
    (hn : '\n' ∉ name) (hv : '\n' ∉ value) :
    readHeaders sz (utf8EncodeList ((name ++ ':' :: ' ' :: value) ++ ['\r', '\n']) ++ rest)
      = readHeaders sz rest := by
  have hl : '\n' ∉ name ++ ':' :: ' ' :: value := by
    simp only [List.mem_append, List.mem_cons]
    rintro (hm | hm | hm | hm)
    · exact hn hm
    · exact absurd hm.symm (by decide)
    · exact absurd hm.symm (by decide)
    · exact hv hm
  rw [readHeaders_step sz _ rest hl]
  rw [if_neg (by simp : ¬ name ++ ':' :: ' ' :: value = [])]
  rw [splitHeader_no_sep name hsep value]
  dsimp only
  rw [if_neg hname]

def isObj : Json → Bool
  | .obj _ => true
  | _ => false

/-! ## Claims -/

/-- C1 (corrected).  Round trip: for every well-formed message `m` (id a
32-bit integer or a string) in which no optional field carries an explicit
JSON `null` (`wfMessage`), encoding with `Message::write` and decoding the
produced bytes with `Message::read` yields `Some` of a message structurally
equal to `m`; in particular distinct well-formed messages (such as one with
numeric id `92` and one with string id `"92"`) stay distinct.  The claim as
stated fails for `Response { result: Some(Value::Null) }`, which serializes
as `"result":null` and reads back as `None` — see the counterexample. -/
theorem writeRead_roundtrip :
    (∀ m : Message, wfMessage m = true →
      Message.read (Message.writeBytes m) = .ok (some (m, [])))
    ∧ (∀ m1 m2 : Message, wfMessage m1 = true → wfMessage m2 = true → m1 ≠ m2 →
      Message.read (Message.writeBytes m1) ≠ Message.read (Message.writeBytes m2)) := by
  refine ⟨read_write_roundtrip, ?_⟩
  intro m1 m2 h1 h2 hne heq
  rw [read_write_roundtrip m1 h1, read_write_roundtrip m2 h2] at heq
  simp at heq
  exact hne heq

theorem writeRead_roundtrip_witness :
    wfMessage (.request ⟨⟨.i32 92⟩, "m", Json.null⟩) = true
    ∧ Message.read (Message.writeBytes (.request ⟨⟨.i32 92⟩, "m", Json.null⟩))
        = .ok (some (.request ⟨⟨.i32 92⟩, "m", Json.null⟩, []))
    ∧ Message.read (Message.writeBytes (.request ⟨⟨.i32 92⟩, "m", Json.null⟩))
        ≠ Message.read (Message.writeBytes (.request ⟨⟨.string "92"⟩, "m", Json.null⟩)) :=
  ⟨by decide, writeRead_roundtrip.1 _ (by decide),
    writeRead_roundtrip.2 _ _ (by decide) (by decide) (by decide)⟩

/-- C1 counterexample: a constructible message whose `result` field is
`Some(Value::Null)` does not survive the round trip — it comes back with
`result = None`, a structurally different message. -/
theorem writeRead_null_result_counterexample :
    Message.read (Message.writeBytes (.response ⟨⟨.i32 1⟩, some Json.null, none⟩))
      = .ok (some (.response ⟨⟨.i32 1⟩, none, none⟩, []))
    ∧ Message.response ⟨⟨.i32 1⟩, some Json.null, none⟩
        ≠ Message.response ⟨⟨.i32 1⟩, none, none⟩ :=
  ⟨by decide, by decide⟩

/-- C2 (confirmed).  On a Request whose method is "shutdown",
`handle_shutdown` sends exactly one success Response with a null result and
the same id, waits on the receiver with the 30-second timeout, returns
`Ok(true)` exactly when the next inbound message is a Notification with
method "exit", returns a ProtocolError on any other message, and returns a
ProtocolError when the receive fails (timeout or disconnect). -/
theorem handle_shutdown_spec (recv : Nat → RecvOutcome) (req : Request)
    (h : req.method = "shutdown") :
    (handle_shutdown recv req).1
        = [Message.response { id := req.id, result := some Json.null, error := none }]
    ∧ ((handle_shutdown recv req).2 = .ok true ↔
        ∃ n : Notification, recv shutdownTimeout = .received (.notification n)
          ∧ n.method = "exit")
    ∧ (∀ msg, recv shutdownTimeout = .received msg →
        (∀ n : Notification, msg = .notification n → n.method ≠ "exit") →
        (handle_shutdown recv req).2 = .error (.unexpectedMessage msg))
    ∧ (∀ e, recv shutdownTimeout = .failed e →
        (handle_shutdown recv req).2 = .error (.recvError e))
    ∧ shutdownTimeout = 30 := by
  have hs : req.is_shutdown = true := by simp [Request.is_shutdown, h]
  unfold handle_shutdown
  rw [if_neg (by simp [hs])]
  refine ⟨rfl, ?_, ?_, ?_, rfl⟩
  · dsimp only
    constructor
    · intro hok
      cases hrecv : recv shutdownTimeout with
      | received m =>
        cases m with
        | notification n =>
          by_cases he : n.is_exit = true
          · exact ⟨n, rfl, by simpa [Notification.is_exit] using he⟩
          · rw [hrecv] at hok
            simp [he] at hok
        | request r =>
          rw [hrecv] at hok
          simp at hok
        | response r =>
          rw [hrecv] at hok
          simp at hok
      | failed e =>
        rw [hrecv] at hok
        simp at hok
    · rintro ⟨n, hrecv, hexit⟩
      rw [hrecv]
      simp [Notification.is_exit, hexit]
  · intro msg hrecv hne
    dsimp only
    rw [hrecv]
    cases msg with
    | notification n =>
      have hnm : n.method ≠ "exit" := hne n rfl
      simp [Notification.is_exit, hnm]
    | request r => rfl
    | response r => rfl
  · intro e hrecv
    dsimp only
    rw [hrecv]

theorem handle_shutdown_spec_witness :
    (handle_shutdown (fun _ => .received (.notification ⟨"exit", Json.null⟩))
        ⟨⟨.i32 1⟩, "shutdown", Json.null⟩).2 = .ok true := by
  have h := handle_shutdown_spec (fun _ => .received (.notification ⟨"exit", Json.null⟩))
    ⟨⟨.i32 1⟩, "shutdown", Json.null⟩ (by decide)
  exact h.2.1.mpr ⟨⟨"exit", Json.null⟩, rfl, rfl⟩

/-- C3 (corrected).  Untagged variant selection over a decoded JSON object:
a payload carrying a well-typed `id` (number in `i32` range, or string)
together with a string `method` decodes as a Request; a well-typed `id`
without `method` (and a well-typed-or-absent `error` field) decodes as a
Response; a string `method` with no `id` field decodes as a Notification;
an object with neither `id` nor `method`, or a non-object payload, is a
decode error.  Selection is not by field *presence* alone: an ill-typed
`id` next to a valid `method` decodes as a Notification (the `id` is
ignored as an unknown field) — see the counterexample. -/
theorem decode_variant_selection :
    (∀ (fs : List (String × Json)) (iv : Json) (i : RequestId) (mth : String),
      lookupField fs "id" = some iv → decodeRequestId iv = some i →
      lookupField fs "method" = some (.str mth) →
      decodeMessage (.obj fs)
        = some (.request { id := i, method := mth, params := (lookupField fs "params").getD Json.null }))
    ∧ (∀ (fs : List (String × Json)) (iv : Json) (i : RequestId)
        (eopt : Option ResponseError),
      lookupField fs "id" = some iv → decodeRequestId iv = some i →
      lookupField fs "method" = none → decodeOptError fs = some eopt →
      decodeMessage (.obj fs)
        = some (.response { id := i, result := readOptField fs "result", error := eopt }))
    ∧ (∀ (fs : List (String × Json)) (mth : String),
      lookupField fs "id" = none → lookupField fs "method" = some (.str mth) →
      decodeMessage (.obj fs)
        = some (.notification { method := mth, params := (lookupField fs "params").getD Json.null }))
    ∧ (∀ (fs : List (String × Json)),
      lookupField fs "id" = none → lookupField fs "method" = none →
      decodeMessage (.obj fs) = none)
    ∧ (∀ j : Json, isObj j = false → decodeMessage j = none) := by
  refine ⟨?_, ?_, ?_, ?_, ?_⟩
  · intro fs iv i mth hid hdec hm
    simp [decodeMessage, decodeRequest, hid, hdec, hm]
  · intro fs iv i eopt hid hdec hm herr
    simp [decodeMessage, decodeRequest, decodeResponse, hid, hdec, hm, herr]
  · intro fs mth hid hm
    simp [decodeMessage, decodeRequest, decodeResponse, decodeNotification, hid, hm]
  · intro fs hid hm
    simp [decodeMessage, decodeRequest, decodeResponse, decodeNotification, hid, hm]
  · intro j hj
    cases j <;> simp [isObj] at hj ⊢ <;>
      simp [decodeMessage, decodeRequest, decodeResponse, decodeNotification]

theorem decode_variant_selection_witness :
    decodeMessage (.obj [("id", Json.num 1), ("method", Json.str "m")])
      = some (.request { id := ⟨.i32 1⟩, method := "m", params := Json.null }) :=
  decode_variant_selection.1 [("id", Json.num 1), ("method", Json.str "m")]
    (Json.num 1) ⟨.i32 1⟩ "m" (by decide) (by decide) (by decide)

/-- C3 counterexample: a payload with both an `id` field and a `method`
field decodes as a Notification, not a Request, when the `id` is ill-typed
(here a boolean): presence of the fields alone does not select the
variant. -/
theorem decode_variant_presence_counterexample :
    decodeMessage (.obj [("id", Json.bool true), ("method", Json.str "foo")])
      = some (.notification { method := "foo", params := Json.null })
    ∧ (∀ r : Request,
        decodeMessage (.obj [("id", Json.bool true), ("method", Json.str "foo")])
          ≠ some (.request r)) := by
  refine ⟨by decide, ?_⟩
  intro r h
  rw [show decodeMessage (.obj [("id", Json.bool true), ("method", Json.str "foo")])
      = some (.notification { method := "foo", params := Json.null }) from by decide] at h
  simp at h

/-- C4 (corrected).  Framing error cases of `read_msg_text`, at any point of
the header block (`sz` is the loop's current `Content-Length` state): a
header line not ending in CRLF is a framing error; a non-empty header line
with *no* `": "` separator is a framing error (a line with more than one
separator splits at the first and is accepted — see the counterexample); a
`Content-Length` value rejected by `usize` parsing is a framing error;
reaching the empty terminating line with no `Content-Length` seen is a
framing error; a header block missing the empty terminating line never
yields a message — it is a framing error, or, when the stream ends cleanly
at a line boundary, the no-more-messages result (not an error — see the
counterexample); and a header-loop error is the error of the whole read. -/
theorem read_frame_error_cases :
    (∀ (sz : Option Nat) (stream lb rest : List Nat) (cs : List Char),
      stream ≠ [] → takeLine stream = (lb, rest) → utf8DecodeList lb = some cs →
      endsWithCRLF cs = false → readHeaders sz stream = .error .invalidData)
    ∧ (∀ (sz : Option Nat) (l : List Char) (rest : List Nat),
      '\n' ∉ l → l ≠ [] → splitHeader l = none →
      readHeaders sz (utf8EncodeList (l ++ ['\r', '\n']) ++ rest) = .error .invalidData)
    ∧ (∀ (sz : Option Nat) (value : List Char) (rest : List Nat),
      '\n' ∉ value → parseUsizeChars value = none →
      readHeaders sz
          (utf8EncodeList (("Content-Length: ").data ++ value ++ ['\r', '\n']) ++ rest)
        = .error .invalidData)
    ∧ (∀ (stream rest : List Nat),
      readHeaders none stream = .ok (some (none, rest)) →
      read_msg_text stream = .error .invalidData)
    ∧ (∀ (ls : List (List Char)), (∀ l ∈ ls, '\n' ∉ l ∧ l ≠ []) →
      read_msg_text (encodeLines ls) = .ok none
      ∨ read_msg_text (encodeLines ls) = .error .invalidData)
    ∧ (∀ (stream : List Nat) (e : RErr),
      readHeaders none stream = .error e → read_msg_text stream = .error e) := by
  refine ⟨readHeaders_bad_line, readHeaders_no_sep, readHeaders_bad_cl,
    read_msg_text_no_cl, ?_, read_msg_text_error⟩
  intro ls hwf
  rcases readHeaders_truncated ls none hwf with h | h
  · exact Or.inl (read_msg_text_eos _ h)
  · exact Or.inr (read_msg_text_error _ _ h)

theorem read_frame_error_cases_witness :
    readHeaders none (utf8EncodeList (("oops").data ++ ['\r', '\n']) ++ []) = .error .invalidData :=
  read_frame_error_cases.2.1 none ("oops").data [] (by decide) (by decide) (by decide)

/-- C4 counterexample: a header line with two `": "` separators is accepted
(split at the first), so "not exactly one separator" does not imply an
error; and a header block that ends at a line boundary before the empty
terminating line yields the no-more-messages result, not a framing
error. -/
theorem read_frame_error_cases_counterexample :
    read_msg_text (utf8Encode "X: y: z\r\nContent-Length: 2\r\n\r\n[]")
      = .ok (some ("[]", []))
    ∧ read_msg_text (utf8Encode "Content-Length: 2\r\n") = .ok none :=
  ⟨by decide, by decide⟩

/-- C5 (confirmed).  After a header block declaring `Content-Length: n`,
exactly `n` bytes of the remaining stream are consumed as the payload: if
fewer than `n` remain the read fails with `UnexpectedEof` (never a
truncated message), otherwise the payload is exactly `take n` and the
unconsumed stream exactly `drop n`, failing with a framing error when those
`n` bytes are not valid UTF-8. -/
theorem read_frame_exact_length (stream : List Nat) (n : Nat) (rest : List Nat)
    (h : readHeaders none stream = .ok (some (some n, rest))) :
    (rest.length < n → read_msg_text stream = .error .unexpectedEof)
    ∧ (n ≤ rest.length →
        (∀ cs, utf8DecodeList (rest.take n) = some cs →
          read_msg_text stream = .ok (some (⟨cs⟩, rest.drop n)))
        ∧ (utf8DecodeList (rest.take n) = none →
          read_msg_text stream = .error .invalidData)) := by
  unfold read_msg_text
  rw [h]
  dsimp only
  constructor
  · intro hlt
    rw [if_pos hlt]
  · intro hle
    rw [if_neg (by omega)]
    constructor
    · intro cs hcs
      rw [hcs]
    · intro hcs
      rw [hcs]

theorem read_frame_exact_length_witness :
    read_msg_text (utf8Encode "Content-Length: 3\r\n\r\nabcXY")
      = .ok (some ("abc", utf8Encode "XY")) := by
  have h := (read_frame_exact_length (utf8Encode "Content-Length: 3\r\n\r\nabcXY") 3
    (utf8Encode "abcXY") (by decide)).2 (by decide)
  exact h.1 ("abc").data (by decide)

/-- C6 (confirmed).  Reading from an already-exhausted stream at a
header-line boundary returns the normal no-more-messages result `Ok(None)`,
not an error, both for the frame reader and for `Message::read`; the
exhausted stream is left as is, so every further read returns `Ok(None)`
again. -/
theorem read_end_of_stream :
    read_msg_text ([] : List Nat) = .ok none
    ∧ Message.read ([] : List Nat) = .ok none :=
  ⟨rfl, rfl⟩

/-- C7 (confirmed).  `Message::write` emits exactly the bytes
`Content-Length: <N>\r\n\r\n` followed by the `N` bytes of the UTF-8 JSON
text, where the text is the message's serialization with `jsonrpc = "2.0"`
merged in and `N` is its byte length; the final action on the sink is a
flush, performed before `write` returns. -/
theorem write_frame_format (m : Message) :
    Message.writeBytes m
      = utf8Encode ("Content-Length: "
            ++ natRepr (utf8Encode (Message.writeText m)).length ++ "\r\n\r\n")
        ++ utf8Encode (Message.writeText m)
    ∧ Message.writeText m = String.mk (renderJson (serEnvelope m))
    ∧ serEnvelope m = Json.obj (("jsonrpc", Json.str "2.0") :: messageFields m)
    ∧ (Message.write m).getLast? = some .flush := by
  refine ⟨?_, rfl, rfl, rfl⟩
  simp [Message.writeBytes, Message.write, write_msg_text, outBytes]

/-- C8 (confirmed).  On a Request whose method is anything other than
"shutdown", `handle_shutdown` returns `Ok(false)` and sends nothing on the
outbound side. -/
theorem handle_shutdown_passthrough (recv : Nat → RecvOutcome) (req : Request)
    (h : req.method ≠ "shutdown") :
    handle_shutdown recv req = ([], .ok false) := by
  unfold handle_shutdown
  rw [if_pos (by simp [Request.is_shutdown, h] : ¬ req.is_shutdown = true)]

theorem handle_shutdown_passthrough_witness :
    handle_shutdown (fun _ => .failed .timeout) ⟨⟨.i32 1⟩, "foo", Json.null⟩
      = ([], .ok false) :=
  handle_shutdown_passthrough _ _ (by decide)

/-- C9 (confirmed).  The decoder never inspects the `jsonrpc` envelope
field: deleting a `jsonrpc` field (whatever its value) from a payload
object never changes the decoding result, so a payload decodes the same
whether it omits `jsonrpc`, carries `"2.0"`, or carries any other value —
even though every payload `Message::write` produces starts with
`jsonrpc = "2.0"`. -/
theorem decode_ignores_jsonrpc :
    (∀ (fs1 fs2 : List (String × Json)) (v : Json),
      decodeMessage (.obj (fs1 ++ ("jsonrpc", v) :: fs2))
        = decodeMessage (.obj (fs1 ++ fs2)))
    ∧ (∀ m : Message, serEnvelope m = .obj (("jsonrpc", .str "2.0") :: messageFields m)) :=
  ⟨decodeMessage_drop_jsonrpc, fun _ => rfl⟩

/-- C10 (confirmed).  Any well-formed header line whose name is not exactly
`Content-Length` is consumed and ignored (the comparison is case-sensitive:
`content-length` is ignored too, as the witness shows), and when
`Content-Length` occurs more than once in a block the last occurrence
determines the tracked payload length. -/
theorem header_ignore_and_last_cl :
    (∀ (sz : Option Nat) (name value : List Char) (rest : List Nat),
      hasSep name = false → name ≠ "Content-Length".data →
      '\n' ∉ name → '\n' ∉ value →
      readHeaders sz
          (utf8EncodeList ((name ++ ':' :: ' ' :: value) ++ ['\r', '\n']) ++ rest)
        = readHeaders sz rest)
    ∧ (∀ (sz : Option Nat) (n1 n2 : Nat) (rest : List Nat),
      readHeaders sz
          (utf8EncodeList (("Content-Length: ").data ++ natChars n1 ++ ['\r', '\n'])
            ++ (utf8EncodeList (("Content-Length: ").data ++ natChars n2 ++ ['\r', '\n'])
              ++ rest))
        = readHeaders (some n2) rest) := by
  constructor
  · exact readHeaders_ignored
  · intro sz n1 n2 rest
    rw [readHeaders_cl, readHeaders_cl]

theorem header_ignore_and_last_cl_witness :
    readHeaders none
        (utf8EncodeList ((("content-length").data ++ ':' :: ' ' :: ("999").data)
          ++ ['\r', '\n']) ++ [])
      = readHeaders none [] :=
  header_ignore_and_last_cl.1 none ("content-length").data ("999").data []
    (by decide) (by decide) (by decide) (by decide)

end AstRs
